import Mathlib

/-!
Verification of the Smart-Bus-Scheduler frontend simulation engine.

The development shallowly embeds the engine's core:
  * `src/types.ts`            — the data model (`Point`, `Node`, `Edge`, `SimulatedBus`, ...)
  * `src/utils/geometry.ts`   — quadratic Bezier evaluation
  * `src/utils/graph.ts`      — `findPath`, BFS shortest path over a directed edge list
  * `src/components/BusMap.tsx` — `generateDispatchSchedule` and the multi-bus
    animation tick `handleMultiBusAnimation`

JavaScript numbers are embedded as `ℚ` (exact arithmetic), counts and ids as `ℕ`.
Transcendental functions (`Math.atan2`, `Math.cos`, `Math.sin`, `Math.PI`) are
not algebraic, so they are passed in as an uninterpreted oracle `GeomOracle`;
no theorem below depends on their values.  `Math.random()` is modelled as an
oracle of rationals indexed by call site.
-/

namespace SmartBus

/-- Structure `Point` from `src/types.ts`: 2D position with numeric coordinates. -/
structure Point where
  x : ℚ
  y : ℚ
deriving DecidableEq

/-- Node category from `src/types.ts` (`'terminal' | 'stop' | 'hub'`). -/
inductive NodeType
  | terminal
  | stop
  | hub
deriving DecidableEq

/-- Structure `Node` from `src/types.ts`. -/
structure Node where
  id : String
  label : String
  x : ℚ
  y : ℚ
  type : Option NodeType
deriving DecidableEq

/-- Structure `Edge` from `src/types.ts`: directed edge with a curvature offset. -/
structure Edge where
  «from» : String
  «to» : String
  controlPointOffset : Point
deriving DecidableEq

/-! Geometry (`src/utils/geometry.ts`). -/
/-- Function `getQuadraticBezierPoint` from `src/utils/geometry.ts`, line for line. -/
def getQuadraticBezierPoint (t : ℚ) (p0 p1 p2 : Point) : Point :=
  let oneMinusT := 1 - t
  let x := oneMinusT * oneMinusT * p0.x + 2 * oneMinusT * t * p1.x + t * t * p2.x
  let y := oneMinusT * oneMinusT * p0.y + 2 * oneMinusT * t * p1.y + t * t * p2.y
  ⟨x, y⟩

/-- Reference definition written from the spec's words (section 4.1): the quadratic Bezier
`B(t) = (1-t)²p0 + 2(1-t)t·p1 + t²p2`, stated componentwise.  This is the
reference definition C8 compares `getQuadraticBezierPoint` against. -/
def bezierSpecPoint (t : ℚ) (p0 p1 p2 : Point) : Point :=
  ⟨(1 - t) ^ 2 * p0.x + 2 * (1 - t) * t * p1.x + t ^ 2 * p2.x,
   (1 - t) ^ 2 * p0.y + 2 * (1 - t) * t * p1.y + t ^ 2 * p2.y⟩

/-- Oracle for the transcendental functions used by the rendering code.
`Math.atan2`, `Math.cos`, `Math.sin` and `Math.PI` have no algebraic
definition over `ℚ`; every theorem in this file holds for an arbitrary
interpretation. -/
structure GeomOracle where
  atan2 : ℚ → ℚ → ℚ
  cos : ℚ → ℚ
  sin : ℚ → ℚ
  pi : ℚ

/-- Function `getQuadraticBezierAngle` from `src/utils/geometry.ts`; the final
`atan2`/`Math.PI` step goes through the oracle. -/
def getQuadraticBezierAngle (g : GeomOracle) (t : ℚ) (p0 p1 p2 : Point) : ℚ :=
  let dx := 2 * (1 - t) * (p1.x - p0.x) + 2 * t * (p2.x - p1.x)
  let dy := 2 * (1 - t) * (p1.y - p0.y) + 2 * t * (p2.y - p1.y)
  g.atan2 dy dx * 180 / g.pi

/-- Function `calculateControlPoint` from `src/utils/geometry.ts`: segment midpoint
plus the edge's curvature offset. -/
def calculateControlPoint (start stop offset : Point) : Point :=
  let midX := (start.x + stop.x) / 2
  let midY := (start.y + stop.y) / 2
  ⟨midX + offset.x, midY + offset.y⟩

/-! Dispatch scheduler (`BusMap.tsx`, `generateDispatchSchedule`, lines 88-122). -/
/-- Structure `RouteAnalytics` from `src/types.ts`.  `frequency_minutes` is
"Treated as seconds for simulation" (comment in the source). -/
structure RouteAnalytics where
  route_id : ℕ
  route_name : String
  total_people : ℕ
  probability : ℚ
  buses_allocated : ℕ
  frequency_minutes : ℕ
deriving DecidableEq

/-- The per-route body of `generateDispatchSchedule` (`BusMap.tsx` lines 91-118).
`rnd i` is the value `Math.random()` returns for window `i`; the produced list
holds `(dispatchTime, route_id)` pairs, one per `schedule[dispatchTime].push`.

On `busesToSchedule`: the source computes
`Math.min(allocated, Math.floor(totalCycles / freq))`.  In JS, when
`freq = 0` this floor is `+Infinity` (if `totalCycles > 0`), so `min` keeps
`allocated`; when additionally `totalCycles = 0` it is `NaN` and the `for`
loop body never runs. -/
def scheduleRoute (rnd : ℕ → ℚ) (totalCycles : ℕ) (route : RouteAnalytics) : List (ℕ × ℕ) :=
  let allocated := route.buses_allocated
  let freq := route.frequency_minutes
  let busesToSchedule :=
    if freq = 0 then (if totalCycles = 0 then 0 else allocated)
    else min allocated (totalCycles / freq)
  (List.range busesToSchedule).filterMap (fun i =>
    let windowStart := i * freq
    let windowEnd := (i + 1) * freq
    let maxTime := min windowEnd totalCycles
    let minTime := windowStart
    if minTime < maxTime then
      some (Int.toNat ⌊rnd i * ((maxTime : ℚ) - (minTime : ℚ))⌋ + minTime, route.route_id)
    else none)

/-- Function `generateDispatchSchedule` (`BusMap.tsx` lines 88-122): iterate
`scheduleRoute` over `routesAnalytics`.  The random oracle is indexed by the
route's position in the list and the window index. -/
def generateDispatchSchedule (rnd : ℕ → ℕ → ℚ) (routesAnalytics : List RouteAnalytics)
    (totalCycles : ℕ) : List (ℕ × ℕ) :=
  routesAnalytics.enum.flatMap (fun jr => scheduleRoute (rnd jr.1) totalCycles jr.2)

/-! Vehicle state machine (`BusMap.tsx`, `handleMultiBusAnimation`, lines 258-379).

The per-frame callback mutates each non-finished bus in place; the embedding
steps one bus functionally (`stepBusWith`) and folds the whole frame
(`handleMultiBusAnimationWith`).  The fixed `laneWidth = 14` of the source is
exposed as the first parameter so that the lane-separation offset can be
compared against a zero-width variant (claim C7); `stepBus` and
`handleMultiBusAnimation` instantiate it with the source's constant. -/
/-- Lifecycle states of `SimulatedBus.state` (`src/types.ts`). -/
inductive BusPhase
  | MOVING
  | WAITING
  | WAITING_FINAL
  | FINISHED
deriving DecidableEq

/-- Structure `SimulatedBus` from `src/types.ts`. -/
structure SimulatedBus where
  id : String
  routeId : ℕ
  color : String
  path : List String
  currentSegment : ℕ
  state : BusPhase
  lastStateChangeTime : ℚ
  x : ℚ
  y : ℚ
  rotation : ℚ
deriving DecidableEq

/-- Constant `STOP_DURATION = 1000` (`BusMap.tsx` line 31). -/
def STOP_DURATION : ℚ := 1000

/-- Constant `DESTINATION_WAIT = 2000` (`BusMap.tsx` line 32). -/
def DESTINATION_WAIT : ℚ := 2000

/-- Constant `TRAVEL_DURATION = 2000` (`BusMap.tsx` line 33). -/
def TRAVEL_DURATION : ℚ := 2000

/-- Structure `RouteStats` from `src/types.ts`. -/
structure RouteStats where
  active : ℕ
  completed : ℕ
deriving DecidableEq

/-- One bus's update inside the `ongoingBuses.forEach` of
`handleMultiBusAnimation` (`BusMap.tsx` lines 266-348). Returns the updated
bus and whether its `routeId` was pushed onto `busesFinishedThisFrame`.
JS `%` is a truncated remainder, hence `Int.tmod`; `FINISHED` buses are
filtered out before the loop, so that arm is the identity. -/
def stepBusWith (laneWidth : ℚ) (g : GeomOracle) (nodes : String → Node) (edges : List Edge)
    (time : ℚ) (bus : SimulatedBus) : SimulatedBus × Bool :=
  match bus.state with
  | BusPhase.FINISHED => (bus, false)
  | BusPhase.WAITING | BusPhase.WAITING_FINAL =>
    let elapsedWait := time - bus.lastStateChangeTime
    let duration := if bus.state = BusPhase.WAITING_FINAL then DESTINATION_WAIT else STOP_DURATION
    if duration < elapsedWait then
      if bus.state = BusPhase.WAITING_FINAL then
        ({ bus with state := BusPhase.FINISHED }, true)
      else
        ({ bus with state := BusPhase.MOVING,
                    currentSegment := bus.currentSegment + 1,
                    lastStateChangeTime := time }, false)
    else (bus, false)
  | BusPhase.MOVING =>
    let segmentIndex := bus.currentSegment
    if bus.path.length - 1 ≤ segmentIndex then
      ({ bus with state := BusPhase.FINISHED }, true)
    else
      let fromId := bus.path.getD segmentIndex ""
      let toId := bus.path.getD (segmentIndex + 1) ""
      let fromNode := nodes fromId
      let toNode := nodes toId
      match edges.find? (fun e => decide (e.«from» = fromId) && decide (e.«to» = toId)) with
      | none => ({ bus with state := BusPhase.FINISHED }, true)
      | some edge =>
        let cp := calculateControlPoint ⟨fromNode.x, fromNode.y⟩ ⟨toNode.x, toNode.y⟩
          edge.controlPointOffset
        let elapsed := time - bus.lastStateChangeTime
        let t := min (elapsed / TRAVEL_DURATION) 1
        let pos := getQuadraticBezierPoint t ⟨fromNode.x, fromNode.y⟩ cp ⟨toNode.x, toNode.y⟩
        let rot := getQuadraticBezierAngle g t ⟨fromNode.x, fromNode.y⟩ cp ⟨toNode.x, toNode.y⟩
        let angleRad := rot * g.pi / 180
        let normalRad := angleRad + g.pi / 2
        let laneIndex := ((bus.routeId : ℤ) - 1).tmod 4
        let laneOffset := ((laneIndex : ℚ) - 3 / 2) * laneWidth
        let offsetX := laneOffset * g.cos normalRad
        let offsetY := laneOffset * g.sin normalRad
        if 1 ≤ t then
          let isFinal := segmentIndex + 1 = bus.path.length - 1
          ({ bus with
              state := if isFinal then BusPhase.WAITING_FINAL else BusPhase.WAITING,
              lastStateChangeTime := time,
              x := toNode.x + offsetX,
              y := toNode.y + offsetY,
              rotation := rot }, false)
        else
          ({ bus with x := pos.x + offsetX, y := pos.y + offsetY, rotation := rot }, false)

/-- Specialization `stepBus`: `stepBusWith` at the source's `laneWidth = 14` (`BusMap.tsx` line 327). -/
def stepBus (g : GeomOracle) (nodes : String → Node) (edges : List Edge) (time : ℚ)
    (bus : SimulatedBus) : SimulatedBus × Bool :=
  stepBusWith 14 g nodes edges time bus

/-- One frame of `handleMultiBusAnimation` (`BusMap.tsx` lines 258-360):
filter out finished buses, update every ongoing bus, add this frame's
completions to the per-route counters, and drop buses that finished.
Returns (`busesRef.current` after the frame, updated `completedCountsRef`). -/
def handleMultiBusAnimationWith (laneWidth : ℚ) (g : GeomOracle) (nodes : String → Node)
    (edges : List Edge) (time : ℚ) (fleet : List SimulatedBus) (completedCounts : ℕ → ℕ) :
    List SimulatedBus × (ℕ → ℕ) :=
  let ongoingBuses := fleet.filter (fun b => decide (b.state ≠ BusPhase.FINISHED))
  let stepped := ongoingBuses.map (stepBusWith laneWidth g nodes edges time)
  let busesFinishedThisFrame := (stepped.filter (fun p => p.2)).map (fun p => p.1.routeId)
  let newCounts := fun r => completedCounts r + busesFinishedThisFrame.count r
  let remainingBuses :=
    (stepped.map Prod.fst).filter (fun b => decide (b.state ≠ BusPhase.FINISHED))
  (remainingBuses, newCounts)

/-- Specialization of `handleMultiBusAnimationWith` at the source's `laneWidth = 14`. -/
def handleMultiBusAnimation (g : GeomOracle) (nodes : String → Node) (edges : List Edge)
    (time : ℚ) (fleet : List SimulatedBus) (completedCounts : ℕ → ℕ) :
    List SimulatedBus × (ℕ → ℕ) :=
  handleMultiBusAnimationWith 14 g nodes edges time fleet completedCounts

/-- The telemetry block of `handleMultiBusAnimation` (`BusMap.tsx` lines
362-377): per-route active count over the remaining buses plus the cumulative
completed counter, with zero entries for inactive routes. -/
def simulationStats (routesAnalytics : List RouteAnalytics) (remainingBuses : List SimulatedBus)
    (completedCounts : ℕ → ℕ) : List (ℕ × RouteStats) :=
  routesAnalytics.map (fun r =>
    (r.route_id,
     ⟨(remainingBuses.filter (fun b => decide (b.routeId = r.route_id))).length,
      completedCounts r.route_id⟩))

/-- A fresh bus as built by the simulation spawner (`BusMap.tsx` lines
142-154): segment `0`, state `MOVING`, position at the path's first node. -/
def spawnBus (nodes : String → Node) (id : String) (routeId : ℕ) (color : String)
    (path : List String) (now : ℚ) : SimulatedBus :=
  ⟨id, routeId, color, path, 0, BusPhase.MOVING, now,
   (nodes (path.getD 0 "")).x, (nodes (path.getD 0 "")).y, 0⟩

/-- Folding animation frames at the given times over a fleet/counter state. -/
def runFleet (laneWidth : ℚ) (g : GeomOracle) (nodes : String → Node) (edges : List Edge)
    (times : List ℚ) (st : List SimulatedBus × (ℕ → ℕ)) : List SimulatedBus × (ℕ → ℕ) :=
  times.foldl (fun s t => handleMultiBusAnimationWith laneWidth g nodes edges t s.1 s.2) st

/-! Claim C3: the spec's end-to-end 3-stop example.

Stops `A, B, C` with edges `A -> B`, `B -> C`, route `[A, B, C]`, one vehicle
spawned at `0`.  The geometry oracle is instantiated with the zero functions
(the dynamics never depend on it).  Frames are placed at every boundary the
claim names (2000, 3000, 5000, 7000) and at the adjacent milliseconds, so the
run exhibits the exact transition instants: because both dwell checks use a
strict `elapsed > duration` comparison, a dwell ends at the first frame
strictly later than `lastStateChangeTime + duration`, hence WAITING ends at
3001 (not 3000), the second MOVING ends at 5001, and FINISHED happens at 7002
(not 7000). -/
/-- Degenerate transcendental oracle for concrete runs. -/
def geomZero : GeomOracle := ⟨fun _ _ => 0, fun _ => 0, fun _ => 0, 0⟩

/-- The `A, B, C` stop row of the spec's end-to-end example. -/
def nodesABC : String → Node := fun s =>
  if s = "B" then ⟨"B", "B", 1, 0, none⟩
  else if s = "C" then ⟨"C", "C", 2, 0, none⟩
  else ⟨"A", "A", 0, 0, none⟩

def edgesABC : List Edge := [⟨"A", "B", ⟨0, 0⟩⟩, ⟨"B", "C", ⟨0, 0⟩⟩]

/-- The vehicle spawned at second 0 on route `[A, B, C]`. -/
def busABC : SimulatedBus := spawnBus nodesABC "bus-1-0" 1 "#3b82f6" ["A", "B", "C"] 0

/-- State of `busABC` after arriving at `B` at 2000 ms. -/
def busW : SimulatedBus :=
  { busABC with state := BusPhase.WAITING, lastStateChangeTime := 2000, x := 1 }

/-- State of `busW` after leaving `B` at 3001 ms (the dwell check is strict). -/
def busM2 : SimulatedBus :=
  { busW with state := BusPhase.MOVING, currentSegment := 1, lastStateChangeTime := 3001 }

/-- State of `busM2` after arriving at the terminal `C` at 5001 ms. -/
def busWF : SimulatedBus :=
  { busM2 with state := BusPhase.WAITING_FINAL, lastStateChangeTime := 5001, x := 2 }

def c3Init : List SimulatedBus × (ℕ → ℕ) := ([busABC], fun _ => 0)

def c3T2000 : List ℚ := [0, 1000, 2000]

def c3T3000 : List ℚ := [0, 1000, 2000, 2500, 3000]

def c3T3001 : List ℚ := [0, 1000, 2000, 2500, 3000, 3001]

def c3T5000 : List ℚ := [0, 1000, 2000, 2500, 3000, 3001, 4000, 5000]

def c3T5001 : List ℚ := [0, 1000, 2000, 2500, 3000, 3001, 4000, 5000, 5001]

def c3T7000 : List ℚ := [0, 1000, 2000, 2500, 3000, 3001, 4000, 5000, 5001, 6000, 6999, 7000]

def c3T7001 : List ℚ := [0, 1000, 2000, 2500, 3000, 3001, 4000, 5000, 5001, 6000, 6999, 7000, 7001]

def c3T7002 : List ℚ :=
  [0, 1000, 2000, 2500, 3000, 3001, 4000, 5000, 5001, 6000, 6999, 7000, 7001, 7002]

/-! Claims C4-C7: invariants of the per-frame update. -/
/-- The inductive invariant behind claim C4: a `MOVING` bus still has a
segment to travel, and a `WAITING` bus still has a segment to travel after
its pending increment. -/
def BusInv (b : SimulatedBus) : Prop :=
  (b.state = BusPhase.MOVING → b.currentSegment < b.path.length - 1) ∧
  (b.state = BusPhase.WAITING → b.currentSegment + 1 < b.path.length - 1)

/-- The logical (non-rendered) component of a bus: everything except the
rendered `x`/`y` position. -/
def busCore (b : SimulatedBus) :
    String × ℕ × String × List String × ℕ × BusPhase × ℚ × ℚ :=
  (b.id, b.routeId, b.color, b.path, b.currentSegment, b.state, b.lastStateChangeTime,
   b.rotation)

/-! Graph search (`src/utils/graph.ts`, `findPath`).

The JS `while (queue.length > 0)` loop is embedded as the fueled `bfsLoop`;
`findPath` supplies fuel `edges.length + 2`, and `bfsLoop_isSome` (claim C9)
proves that this fuel can never run out, so the fueled loop is exactly the
source's unbounded loop.  `pushNeighbors` is the loop's `for (neighbor of
neighbors)` body; queue pushes append at the tail, `shift()` pops the head. -/
/-- The `edges.filter(e => e.from === current.id).map(e => e.to)` of
`graph.ts` lines 19-21. -/
def neighborsOf (edges : List Edge) (a : String) : List String :=
  (edges.filter (fun e => decide (e.«from» = a))).map (fun e => e.«to»)

/-- The `for (const neighbor of neighbors)` body of `graph.ts` lines 23-33:
push each not-yet-visited neighbor (with its extended path) and mark it
visited. -/
def pushNeighbors (path : List String) :
    List String → List (String × List String) → List String →
      List (String × List String) × List String
  | [], queue, visited => (queue, visited)
  | n :: rest, queue, visited =>
    if n ∈ visited then pushNeighbors path rest queue visited
    else pushNeighbors path rest (queue ++ [(n, path ++ [n])]) (visited ++ [n])

/-- The BFS `while` loop of `graph.ts` lines 10-34, with explicit fuel.
`none` means out of fuel (never happens, by `bfsLoop_isSome`); `some none`
is the loop falling through to `return null`; `some (some p)` is
`return current.path`. -/
def bfsLoop (edges : List Edge) (endId : String) :
    ℕ → List (String × List String) → List String → Option (Option (List String))
  | 0, _, _ => none
  | _ + 1, [], _ => some none
  | fuel + 1, current :: rest, visited =>
    if current.1 = endId then some (some current.2)
    else
      let res := pushNeighbors current.2 (neighborsOf edges current.1) rest visited
      bfsLoop edges endId fuel res.1 res.2

/-- Fuel that always suffices: each iteration strictly decreases
`queue.length + (unvisited edge targets)`, which starts below this bound. -/
def bfsFuel (edges : List Edge) : ℕ := edges.length + 2

/-- Function `findPath` from `src/utils/graph.ts`. -/
def findPath (startId endId : String) (edges : List Edge) : Option (List String) :=
  if startId = endId then some [startId]
  else
    match bfsLoop edges endId (bfsFuel edges) [(startId, [startId])] [] with
    | some r => r
    | none => none

/-- There is a directed edge from `a` to `b` in the edge list. -/
def HasEdge (edges : List Edge) (a b : String) : Prop :=
  ∃ e ∈ edges, e.«from» = a ∧ e.«to» = b

/-- Predicate `IsPath edges s x p`: `p` is a directed path from `s` to `x` over
`edges`, represented as the full stop sequence (so its edge count is
`p.length - 1`). -/
inductive IsPath (edges : List Edge) (s : String) : String → List String → Prop
  | refl : IsPath edges s s [s]
  | snoc {y x : String} {p : List String} :
      IsPath edges s y p → HasEdge edges y x → IsPath edges s x (p ++ [x])

/-- Number of distinct edge targets not yet visited: the potential of the
visited set. -/
def targetsNotVisited (edges : List Edge) (visited : List String) : ℕ :=
  (((edges.map (fun e => e.«to»)).dedup).filter (fun t => decide (t ∉ visited))).length

/-- Termination measure of the BFS loop. -/
def bfsMeasure (edges : List Edge) (queue : List (String × List String))
    (visited : List String) : ℕ :=
  queue.length + targetsNotVisited edges visited

/-- The loop invariant of `bfsLoop`, relative to a start `s`, target `e` and
the ghost set `D` of already-processed (dequeued) nodes.  `k` is the BFS
level of the queue's first block: queued paths have length `k` or `k + 1`,
in that order; processed nodes' neighbors are all visited; every path of
length below `k` ends in a processed node; every path of length `k` ends in
a processed node or one queued at level `k`; and every queued path to a
non-start node is no longer than any path to that node. -/
structure BfsInv (edges : List Edge) (s e : String) (q : List (String × List String))
    (v D : List String) (k : ℕ) : Prop where
  sound : ∀ zp ∈ q, IsPath edges s zp.1 zp.2
  levels : ∃ qa qb, q = qa ++ qb ∧ (∀ zp ∈ qa, zp.2.length = k) ∧
    (∀ zp ∈ qb, zp.2.length = k + 1)
  closed : ∀ x ∈ D, ∀ w, HasEdge edges x w → w ∈ v
  vis : ∀ z ∈ v, z ∈ D ∨ ∃ p, (z, p) ∈ q
  qvis : ∀ zp ∈ q, zp.1 ∈ v ∨ zp.1 = s
  dvis : ∀ x ∈ D, x ∈ v ∨ x = s
  start : s ∈ D ∨ ∃ p, (s, p) ∈ q
  target : e ∉ D
  kpos : 1 ≤ k
  k1 : ∀ x P, IsPath edges s x P → P.length < k → x ∈ D
  k2 : ∀ x P, IsPath edges s x P → P.length = k →
    x ∈ D ∨ ∃ p, (x, p) ∈ q ∧ p.length = k
  k3 : ∀ zp ∈ q, zp.1 ≠ s → ∀ P, IsPath edges s zp.1 P → zp.2.length ≤ P.length

/-! Theorems. -/

/-- C8: for every `t` and all control points, `getQuadraticBezierPoint t p0 p1 p2`
equals the quadratic Bezier `B(t) = (1-t)²p0 + 2(1-t)t·p1 + t²p2` componentwise;
in particular the value at `t = 0` is exactly `p0` and at `t = 1` exactly `p2`. -/
theorem getQuadraticBezierPoint_eq_spec (t : ℚ) (p0 p1 p2 : Point) :
    getQuadraticBezierPoint t p0 p1 p2 = bezierSpecPoint t p0 p1 p2 ∧
    getQuadraticBezierPoint 0 p0 p1 p2 = p0 ∧
    getQuadraticBezierPoint 1 p0 p1 p2 = p2 := by
  refine ⟨?_, ?_, ?_⟩
  · simp only [getQuadraticBezierPoint, bezierSpecPoint, Point.mk.injEq]
    constructor <;> ring
  · simp [getQuadraticBezierPoint]
  · simp [getQuadraticBezierPoint]

lemma scheduleRoute_mem (rnd : ℕ → ℚ) (N : ℕ) (r : RouteAnalytics)
    (hr : ∀ i, 0 ≤ rnd i ∧ rnd i < 1) :
    ∀ e ∈ scheduleRoute rnd N r, e.2 = r.route_id ∧ e.1 < N := by
  intro e he
  simp only [scheduleRoute, List.mem_filterMap, List.mem_range] at he
  obtain ⟨i, _, hi⟩ := he
  split at hi
  case isTrue hlt =>
    obtain ⟨h0, h1⟩ := hr i
    set minT := i * r.frequency_minutes with hminT
    set maxT := min ((i + 1) * r.frequency_minutes) N with hmaxT
    obtain rfl : ((⌊rnd i * ((maxT : ℚ) - (minT : ℚ))⌋).toNat + minT, r.route_id) = e :=
      Option.some.inj hi
    refine ⟨rfl, ?_⟩
    have hd : (0 : ℚ) < (maxT : ℚ) - (minT : ℚ) := by
      have : (minT : ℚ) < (maxT : ℚ) := by exact_mod_cast hlt
      linarith
    have hfl : ⌊rnd i * ((maxT : ℚ) - (minT : ℚ))⌋ < ((maxT - minT : ℕ) : ℤ) := by
      apply Int.floor_lt.mpr
      have hle : rnd i * ((maxT : ℚ) - (minT : ℚ)) < 1 * ((maxT : ℚ) - (minT : ℚ)) := by
        exact mul_lt_mul_of_pos_right h1 hd
      have hcast : (((maxT - minT : ℕ) : ℤ) : ℚ) = (maxT : ℚ) - (minT : ℚ) := by
        push_cast [Nat.cast_sub (le_of_lt hlt)]
        ring
      rw [hcast]
      linarith
    have hmN : maxT ≤ N := by
      simp [hmaxT]
    show (⌊rnd i * ((maxT : ℚ) - (minT : ℚ))⌋).toNat + minT < N
    omega
  case isFalse => exact absurd hi (by simp)

lemma scheduleRoute_eq_nil (rnd : ℕ → ℚ) (N : ℕ) (r : RouteAnalytics)
    (h : r.frequency_minutes = 0 ∨ N < r.frequency_minutes) :
    scheduleRoute rnd N r = [] := by
  rcases h with h0 | hlt
  · simp only [scheduleRoute, h0]
    apply List.eq_nil_iff_forall_not_mem.mpr
    intro e he
    simp only [List.mem_filterMap, List.mem_range] at he
    obtain ⟨i, _, hi⟩ := he
    simp at hi
  · have hdiv : N / r.frequency_minutes = 0 := Nat.div_eq_of_lt hlt
    have hne : r.frequency_minutes ≠ 0 := by omega
    simp [scheduleRoute, hne, hdiv]

lemma scheduleRoute_length (rnd : ℕ → ℚ) (N : ℕ) (r : RouteAnalytics) :
    (scheduleRoute rnd N r).length ≤
      min r.buses_allocated (N / r.frequency_minutes) := by
  by_cases h0 : r.frequency_minutes = 0
  · rw [scheduleRoute_eq_nil rnd N r (Or.inl h0)]
    simp
  · calc (scheduleRoute rnd N r).length
        ≤ (List.range (min r.buses_allocated (N / r.frequency_minutes))).length := by
          simp only [scheduleRoute, h0, if_neg h0]
          exact List.length_filterMap_le _ _
      _ = min r.buses_allocated (N / r.frequency_minutes) := List.length_range _

lemma scheduleRoute_mem_snd (rnd : ℕ → ℚ) (N : ℕ) (r : RouteAnalytics) :
    ∀ e ∈ scheduleRoute rnd N r, e.2 = r.route_id := by
  intro e he
  simp only [scheduleRoute, List.mem_filterMap, List.mem_range] at he
  obtain ⟨i, _, hi⟩ := he
  split at hi
  · cases Option.some.inj hi
    rfl
  · exact absurd hi (by simp)

lemma enumFrom_flatMap_cons {β : Type} (f : ℕ × RouteAnalytics → List β) (n : ℕ)
    (r : RouteAnalytics) (rs : List RouteAnalytics) :
    (List.enumFrom n (r :: rs)).flatMap f = f (n, r) ++ (List.enumFrom (n + 1) rs).flatMap f := by
  rfl

lemma enumFrom_flatMap_append (rnd : ℕ → ℕ → ℚ) (N : ℕ) (l1 l2 : List RouteAnalytics) :
    ∀ n, (List.enumFrom n (l1 ++ l2)).flatMap (fun jr => scheduleRoute (rnd jr.1) N jr.2) =
      (List.enumFrom n l1).flatMap (fun jr => scheduleRoute (rnd jr.1) N jr.2) ++
        (List.enumFrom (n + l1.length) l2).flatMap
          (fun jr => scheduleRoute (rnd jr.1) N jr.2) := by
  induction l1 with
  | nil => intro n; simp
  | cons r rs ih =>
    intro n
    rw [List.cons_append, enumFrom_flatMap_cons, enumFrom_flatMap_cons, ih (n + 1),
      List.append_assoc]
    have h2 : n + (r :: rs).length = n + 1 + rs.length := by
      simp only [List.length_cons]
      omega
    rw [h2]

lemma enumFrom_flatMap_shift (rnd : ℕ → ℕ → ℚ) (N c : ℕ) (l : List RouteAnalytics) :
    ∀ n, (List.enumFrom (n + c) l).flatMap (fun jr => scheduleRoute (rnd jr.1) N jr.2) =
      (List.enumFrom n l).flatMap (fun jr => scheduleRoute (rnd (jr.1 + c)) N jr.2) := by
  induction l with
  | nil => intro n; rfl
  | cons r rs ih =>
    intro n
    rw [enumFrom_flatMap_cons, enumFrom_flatMap_cons]
    have h2 : n + c + 1 = (n + 1) + c := by omega
    rw [h2, ih (n + 1)]

lemma enumFrom_flatMap_mem_snd (rnd : ℕ → ℕ → ℚ) (N : ℕ) (l : List RouteAnalytics) :
    ∀ n, ∀ e ∈ (List.enumFrom n l).flatMap (fun jr => scheduleRoute (rnd jr.1) N jr.2),
      e.2 ∈ l.map RouteAnalytics.route_id := by
  induction l with
  | nil => intro n e he; simp at he
  | cons r rs ih =>
    intro n e he
    rw [enumFrom_flatMap_cons, List.mem_append] at he
    rcases he with he | he
    · simp [scheduleRoute_mem_snd (rnd n) N r e he]
    · simp only [List.map_cons, List.mem_cons]
      exact Or.inr (ih (n + 1) e he)

lemma enumFrom_flatMap_count (rnd : ℕ → ℕ → ℚ) (N : ℕ) (l : List RouteAnalytics)
    (hids : (l.map RouteAnalytics.route_id).Nodup) (route : RouteAnalytics)
    (hmem : route ∈ l) :
    ∀ n, (((List.enumFrom n l).flatMap (fun jr => scheduleRoute (rnd jr.1) N jr.2)).filter
        (fun e => decide (e.2 = route.route_id))).length ≤
      min route.buses_allocated (N / route.frequency_minutes) := by
  induction l with
  | nil => cases hmem
  | cons r rs ih =>
    intro n
    rw [enumFrom_flatMap_cons, List.filter_append, List.length_append]
    simp only [List.map_cons, List.nodup_cons] at hids
    rcases List.mem_cons.mp hmem with rfl | hmem'
    · have htail : ((List.enumFrom (n + 1) rs).flatMap
          (fun jr => scheduleRoute (rnd jr.1) N jr.2)).filter
            (fun e => decide (e.2 = route.route_id)) = [] := by
        apply List.eq_nil_iff_forall_not_mem.mpr
        intro e he
        rw [List.mem_filter] at he
        have h2 := enumFrom_flatMap_mem_snd rnd N rs (n + 1) e he.1
        have h3 : e.2 = route.route_id := by simpa using he.2
        exact hids.1 (h3 ▸ h2)
      rw [htail]
      simp only [List.length_nil, Nat.add_zero]
      calc ((scheduleRoute (rnd n) N route).filter
            (fun e => decide (e.2 = route.route_id))).length
          ≤ (scheduleRoute (rnd n) N route).length := List.length_filter_le _ _
        _ ≤ min route.buses_allocated (N / route.frequency_minutes) :=
            scheduleRoute_length _ _ _
    · have hhead : (scheduleRoute (rnd n) N r).filter
          (fun e => decide (e.2 = route.route_id)) = [] := by
        apply List.eq_nil_iff_forall_not_mem.mpr
        intro e he
        rw [List.mem_filter] at he
        have h2 := scheduleRoute_mem_snd (rnd n) N r e he.1
        have h3 : e.2 = route.route_id := by simpa using he.2
        apply hids.1
        rw [← h2, h3]
        exact List.mem_map.mpr ⟨route, hmem', rfl⟩
      rw [hhead]
      simp only [List.length_nil, Nat.zero_add]
      exact ih hids.2 hmem' (n + 1)

/-- C2: under the `Math.random() ∈ [0,1)` contract and pairwise-distinct route
ids, every dispatch second in the generated schedule is a natural number
strictly below the horizon, and the number of spawns recorded for a route is
at most `min(allocatedCount, ⌊horizon / frequencySeconds⌋)` (with `horizon/0 = 0`;
for `frequencySeconds = 0` the empty-window guard rejects every draw, so the
count is `0`). -/
theorem generateDispatchSchedule_bounds (rnd : ℕ → ℕ → ℚ)
    (routesAnalytics : List RouteAnalytics) (totalCycles : ℕ)
    (hr : ∀ j i, 0 ≤ rnd j i ∧ rnd j i < 1)
    (hids : (routesAnalytics.map RouteAnalytics.route_id).Nodup) :
    (∀ e ∈ generateDispatchSchedule rnd routesAnalytics totalCycles, e.1 < totalCycles) ∧
    (∀ route ∈ routesAnalytics,
      ((generateDispatchSchedule rnd routesAnalytics totalCycles).filter
          (fun e => decide (e.2 = route.route_id))).length ≤
        min route.buses_allocated (totalCycles / route.frequency_minutes)) := by
  constructor
  · have key : ∀ (l : List RouteAnalytics) (n : ℕ),
        ∀ e ∈ (List.enumFrom n l).flatMap
          (fun jr => scheduleRoute (rnd jr.1) totalCycles jr.2), e.1 < totalCycles := by
      intro l
      induction l with
      | nil => intro n e he; simp at he
      | cons r rs ih =>
        intro n e he
        rw [enumFrom_flatMap_cons, List.mem_append] at he
        rcases he with he | he
        · exact (scheduleRoute_mem (rnd n) totalCycles r (hr n) e he).2
        · exact ih (n + 1) e he
    exact key routesAnalytics 0
  · intro route hmem
    exact enumFrom_flatMap_count rnd totalCycles routesAnalytics hids route hmem 0

/-- Witness for C2 at the spec's own worked example: one route with
`allocatedCount = 3`, `frequencySeconds = 10`, horizon `25`, random source
constantly `1/2`. -/
theorem generateDispatchSchedule_bounds_witness :
    (∀ e ∈ generateDispatchSchedule (fun _ _ => (1 : ℚ) / 2)
        [⟨1, "R1", 0, 0, 3, 10⟩] 25, e.1 < 25) ∧
    (∀ route ∈ ([⟨1, "R1", 0, 0, 3, 10⟩] : List RouteAnalytics),
      ((generateDispatchSchedule (fun _ _ => (1 : ℚ) / 2)
          [⟨1, "R1", 0, 0, 3, 10⟩] 25).filter
          (fun e => decide (e.2 = route.route_id))).length ≤
        min route.buses_allocated (25 / route.frequency_minutes)) :=
  generateDispatchSchedule_bounds (fun _ _ => (1 : ℚ) / 2) [⟨1, "R1", 0, 0, 3, 10⟩] 25
    (fun _ _ => by norm_num) (by simp)

/-- C10: a route whose `frequencySeconds` is `0` or exceeds the horizon
contributes no spawn at all (for `0` every window is empty and the
`maxTime > minTime` guard rejects every draw; for `frequency > horizon` no
window fits), and the rest of the schedule is produced exactly as if the
route were absent.  `generateDispatchSchedule` is a total function, so no
division fault or unbounded loop occurs. -/
theorem generateDispatchSchedule_degenerate_route (totalCycles : ℕ)
    (route : RouteAnalytics)
    (h : route.frequency_minutes = 0 ∨ totalCycles < route.frequency_minutes) :
    (∀ rnd1 : ℕ → ℚ, scheduleRoute rnd1 totalCycles route = []) ∧
    (∀ (rnd : ℕ → ℕ → ℚ) (l1 l2 : List RouteAnalytics),
      generateDispatchSchedule rnd (l1 ++ route :: l2) totalCycles =
        generateDispatchSchedule rnd l1 totalCycles ++
          generateDispatchSchedule (fun j => rnd (j + (l1.length + 1))) l2 totalCycles) := by
  constructor
  · intro rnd1
    exact scheduleRoute_eq_nil rnd1 totalCycles route h
  · intro rnd l1 l2
    show (List.enumFrom 0 (l1 ++ route :: l2)).flatMap
        (fun jr => scheduleRoute (rnd jr.1) totalCycles jr.2) = _
    rw [enumFrom_flatMap_append rnd totalCycles l1 (route :: l2) 0,
      enumFrom_flatMap_cons, scheduleRoute_eq_nil _ totalCycles route h, List.nil_append]
    have h1 : 0 + l1.length + 1 = 0 + (l1.length + 1) := by omega
    rw [h1, enumFrom_flatMap_shift rnd totalCycles (l1.length + 1) l2 0]
    rfl

/-- Witness for C10: a route with frequency `0` and one with frequency greater
than the horizon both schedule nothing, and the surrounding routes are
unaffected. -/
theorem generateDispatchSchedule_degenerate_route_witness :
    (∀ rnd1 : ℕ → ℚ, scheduleRoute rnd1 60 ⟨7, "Z", 0, 0, 5, 0⟩ = []) ∧
    (∀ (rnd : ℕ → ℕ → ℚ) (l1 l2 : List RouteAnalytics),
      generateDispatchSchedule rnd (l1 ++ (⟨7, "Z", 0, 0, 5, 0⟩ : RouteAnalytics) :: l2) 60 =
        generateDispatchSchedule rnd l1 60 ++
          generateDispatchSchedule (fun j => rnd (j + (l1.length + 1))) l2 60) :=
  generateDispatchSchedule_degenerate_route 60 ⟨7, "Z", 0, 0, 5, 0⟩ (Or.inl rfl)

lemma c3_tick0 (c : ℕ → ℕ) :
    handleMultiBusAnimationWith 14 geomZero nodesABC edgesABC 0 [busABC] c = ([busABC], c) := by
  simp [handleMultiBusAnimationWith, stepBusWith, busABC, spawnBus, nodesABC, edgesABC, geomZero,
    getQuadraticBezierPoint, getQuadraticBezierAngle, calculateControlPoint,
    STOP_DURATION, TRAVEL_DURATION, DESTINATION_WAIT]
  all_goals (norm_num <;> decide)

lemma c3_tick1000 (c : ℕ → ℕ) :
    handleMultiBusAnimationWith 14 geomZero nodesABC edgesABC 1000 [busABC] c =
      ([{ busABC with x := 1/2 }], c) := by
  simp [handleMultiBusAnimationWith, stepBusWith, busABC, spawnBus, nodesABC, edgesABC, geomZero,
    getQuadraticBezierPoint, getQuadraticBezierAngle, calculateControlPoint,
    STOP_DURATION, TRAVEL_DURATION, DESTINATION_WAIT]
  all_goals (norm_num <;> decide)

lemma c3_tick2000 (c : ℕ → ℕ) :
    handleMultiBusAnimationWith 14 geomZero nodesABC edgesABC 2000 [{ busABC with x := 1/2 }] c =
      ([busW], c) := by
  simp [handleMultiBusAnimationWith, stepBusWith, busABC, busW, spawnBus, nodesABC, edgesABC,
    geomZero, getQuadraticBezierPoint, getQuadraticBezierAngle, calculateControlPoint,
    STOP_DURATION, TRAVEL_DURATION, DESTINATION_WAIT]

lemma c3_stepW (c : ℕ → ℕ) (time : ℚ) (h : time - 2000 ≤ 1000) :
    handleMultiBusAnimationWith 14 geomZero nodesABC edgesABC time [busW] c = ([busW], c) := by
  have hn : ¬ ((1000 : ℚ) < time - 2000) := by linarith
  simp [handleMultiBusAnimationWith, stepBusWith, busABC, busW, spawnBus, nodesABC, edgesABC,
    geomZero, STOP_DURATION, TRAVEL_DURATION, DESTINATION_WAIT, hn]

lemma c3_tick3001 (c : ℕ → ℕ) :
    handleMultiBusAnimationWith 14 geomZero nodesABC edgesABC 3001 [busW] c = ([busM2], c) := by
  simp [handleMultiBusAnimationWith, stepBusWith, busABC, busW, busM2, spawnBus, nodesABC,
    edgesABC, geomZero, STOP_DURATION, TRAVEL_DURATION, DESTINATION_WAIT]
  all_goals (norm_num <;> decide)

lemma c3_tick4000 (c : ℕ → ℕ) :
    handleMultiBusAnimationWith 14 geomZero nodesABC edgesABC 4000 [busM2] c =
      ([{ busM2 with x := 2999/2000 }], c) := by
  simp [handleMultiBusAnimationWith, stepBusWith, busABC, busW, busM2, spawnBus, nodesABC,
    edgesABC, geomZero, getQuadraticBezierPoint, getQuadraticBezierAngle, calculateControlPoint,
    STOP_DURATION, TRAVEL_DURATION, DESTINATION_WAIT]
  all_goals (norm_num <;> decide)

lemma c3_tick5000 (c : ℕ → ℕ) :
    handleMultiBusAnimationWith 14 geomZero nodesABC edgesABC 5000
      [{ busM2 with x := 2999/2000 }] c = ([{ busM2 with x := 3999/2000 }], c) := by
  simp [handleMultiBusAnimationWith, stepBusWith, busABC, busW, busM2, spawnBus, nodesABC,
    edgesABC, geomZero, getQuadraticBezierPoint, getQuadraticBezierAngle, calculateControlPoint,
    STOP_DURATION, TRAVEL_DURATION, DESTINATION_WAIT]
  all_goals (norm_num <;> decide)

lemma c3_tick5001 (c : ℕ → ℕ) :
    handleMultiBusAnimationWith 14 geomZero nodesABC edgesABC 5001
      [{ busM2 with x := 3999/2000 }] c = ([busWF], c) := by
  simp [handleMultiBusAnimationWith, stepBusWith, busABC, busW, busM2, busWF, spawnBus, nodesABC,
    edgesABC, geomZero, getQuadraticBezierPoint, getQuadraticBezierAngle, calculateControlPoint,
    STOP_DURATION, TRAVEL_DURATION, DESTINATION_WAIT]
  all_goals (norm_num <;> decide)

lemma c3_stepWF (c : ℕ → ℕ) (time : ℚ) (h : time - 5001 ≤ 2000) :
    handleMultiBusAnimationWith 14 geomZero nodesABC edgesABC time [busWF] c = ([busWF], c) := by
  have hn : ¬ ((2000 : ℚ) < time - 5001) := by linarith
  simp [handleMultiBusAnimationWith, stepBusWith, busABC, busW, busM2, busWF, spawnBus, nodesABC,
    edgesABC, geomZero, STOP_DURATION, TRAVEL_DURATION, DESTINATION_WAIT, hn]

lemma c3_tick7002 (c : ℕ → ℕ) :
    (handleMultiBusAnimationWith 14 geomZero nodesABC edgesABC 7002 [busWF] c).1 = [] ∧
    ∀ r, (handleMultiBusAnimationWith 14 geomZero nodesABC edgesABC 7002 [busWF] c).2 r =
      c r + if r = 1 then 1 else 0 := by
  constructor
  · simp [handleMultiBusAnimationWith, stepBusWith, busABC, busW, busM2, busWF, spawnBus,
      nodesABC, edgesABC, geomZero, STOP_DURATION, TRAVEL_DURATION, DESTINATION_WAIT]
    norm_num
  · intro r
    simp [handleMultiBusAnimationWith, stepBusWith, busABC, busW, busM2, busWF, spawnBus,
      nodesABC, edgesABC, geomZero, STOP_DURATION, TRAVEL_DURATION, DESTINATION_WAIT]
    norm_num
    rcases eq_or_ne r 1 with rfl | hr
    · simp
    · simp [hr, List.count_eq_zero]

lemma c3_run2000 : runFleet 14 geomZero nodesABC edgesABC c3T2000 c3Init = ([busW], fun _ => 0) := by
  simp only [c3Init, c3T2000, runFleet, List.foldl, c3_tick0, c3_tick1000, c3_tick2000]

lemma c3_run3000 : runFleet 14 geomZero nodesABC edgesABC c3T3000 c3Init = ([busW], fun _ => 0) := by
  have hw25 := c3_stepW (fun _ => 0) 2500 (by norm_num)
  have hw30 := c3_stepW (fun _ => 0) 3000 (by norm_num)
  simp only [c3Init, c3T3000, runFleet, List.foldl, c3_tick0, c3_tick1000, c3_tick2000, hw25, hw30]

lemma c3_run3001 : runFleet 14 geomZero nodesABC edgesABC c3T3001 c3Init = ([busM2], fun _ => 0) := by
  have hw25 := c3_stepW (fun _ => 0) 2500 (by norm_num)
  have hw30 := c3_stepW (fun _ => 0) 3000 (by norm_num)
  simp only [c3Init, c3T3001, runFleet, List.foldl, c3_tick0, c3_tick1000, c3_tick2000, hw25, hw30,
    c3_tick3001]

lemma c3_run5000 : runFleet 14 geomZero nodesABC edgesABC c3T5000 c3Init =
    ([{ busM2 with x := 3999/2000 }], fun _ => 0) := by
  have hw25 := c3_stepW (fun _ => 0) 2500 (by norm_num)
  have hw30 := c3_stepW (fun _ => 0) 3000 (by norm_num)
  simp only [c3Init, c3T5000, runFleet, List.foldl, c3_tick0, c3_tick1000, c3_tick2000, hw25, hw30,
    c3_tick3001, c3_tick4000, c3_tick5000]

lemma c3_run5001 : runFleet 14 geomZero nodesABC edgesABC c3T5001 c3Init = ([busWF], fun _ => 0) := by
  have hw25 := c3_stepW (fun _ => 0) 2500 (by norm_num)
  have hw30 := c3_stepW (fun _ => 0) 3000 (by norm_num)
  simp only [c3Init, c3T5001, runFleet, List.foldl, c3_tick0, c3_tick1000, c3_tick2000, hw25, hw30,
    c3_tick3001, c3_tick4000, c3_tick5000, c3_tick5001]

lemma c3_run7000 : runFleet 14 geomZero nodesABC edgesABC c3T7000 c3Init = ([busWF], fun _ => 0) := by
  have hw25 := c3_stepW (fun _ => 0) 2500 (by norm_num)
  have hw30 := c3_stepW (fun _ => 0) 3000 (by norm_num)
  have hf60 := c3_stepWF (fun _ => 0) 6000 (by norm_num)
  have hf69 := c3_stepWF (fun _ => 0) 6999 (by norm_num)
  have hf70 := c3_stepWF (fun _ => 0) 7000 (by norm_num)
  simp only [c3Init, c3T7000, runFleet, List.foldl, c3_tick0, c3_tick1000, c3_tick2000, hw25, hw30,
    c3_tick3001, c3_tick4000, c3_tick5000, c3_tick5001, hf60, hf69, hf70]

lemma c3_run7001 : runFleet 14 geomZero nodesABC edgesABC c3T7001 c3Init = ([busWF], fun _ => 0) := by
  have hw25 := c3_stepW (fun _ => 0) 2500 (by norm_num)
  have hw30 := c3_stepW (fun _ => 0) 3000 (by norm_num)
  have hf60 := c3_stepWF (fun _ => 0) 6000 (by norm_num)
  have hf69 := c3_stepWF (fun _ => 0) 6999 (by norm_num)
  have hf70 := c3_stepWF (fun _ => 0) 7000 (by norm_num)
  have hf71 := c3_stepWF (fun _ => 0) 7001 (by norm_num)
  simp only [c3Init, c3T7001, runFleet, List.foldl, c3_tick0, c3_tick1000, c3_tick2000, hw25, hw30,
    c3_tick3001, c3_tick4000, c3_tick5000, c3_tick5001, hf60, hf69, hf70, hf71]

lemma c3_run7002_fst : (runFleet 14 geomZero nodesABC edgesABC c3T7002 c3Init).1 = [] := by
  have hsplit : c3T7002 = c3T7001 ++ [7002] := by norm_num [c3T7001, c3T7002]
  rw [runFleet, hsplit, List.foldl_append]
  show (handleMultiBusAnimationWith 14 geomZero nodesABC edgesABC 7002
    (runFleet 14 geomZero nodesABC edgesABC c3T7001 c3Init).1
    (runFleet 14 geomZero nodesABC edgesABC c3T7001 c3Init).2).1 = []
  rw [c3_run7001]
  exact (c3_tick7002 (fun _ => 0)).1

lemma c3_run7002_snd : (runFleet 14 geomZero nodesABC edgesABC c3T7002 c3Init).2 1 = 1 := by
  have hsplit : c3T7002 = c3T7001 ++ [7002] := by norm_num [c3T7001, c3T7002]
  rw [runFleet, hsplit, List.foldl_append]
  show (handleMultiBusAnimationWith 14 geomZero nodesABC edgesABC 7002
    (runFleet 14 geomZero nodesABC edgesABC c3T7001 c3Init).1
    (runFleet 14 geomZero nodesABC edgesABC c3T7001 c3Init).2).2 1 = 1
  rw [c3_run7001]
  have h := (c3_tick7002 (fun _ => 0)).2 1
  simpa using h

/-- C3 counterexample: with animation frames at `0, 1000, 2000, 2500, 3000,
3001, 4000, 5000, 5001, 6000, 6999, 7000` (every boundary the claim names is
an exact frame), at 7000 ms the vehicle is still `WAITING_FINAL` and the
route's completed count is still `0` — the claim's "FINISHED at 7000 ms with
completed count 1" is false on the code, because dwell expiry requires
`elapsed > duration` strictly, so each dwell outlasts its nominal duration. -/
theorem threeStop_timing_counterexample :
    ((runFleet 14 geomZero nodesABC edgesABC c3T7000 c3Init).1.map (fun b => b.state) =
      [BusPhase.WAITING_FINAL]) ∧
    (runFleet 14 geomZero nodesABC edgesABC c3T7000 c3Init).2 1 = 0 := by
  rw [c3_run7000]
  constructor
  · simp [busWF, busM2, busW, busABC, spawnBus]
  · rfl

/-- C3 amended: the vehicle passes through `MOVING, WAITING, MOVING,
WAITING_FINAL, FINISHED` exactly once each and in this order, never
re-entering `MOVING` after `WAITING_FINAL`, and the completed count for its
route increases by exactly 1, in the same frame that removes the vehicle.
The phase boundaries are shifted by the strict dwell check: `WAITING` holds
from 2000 through 3000 and ends at frame 3001, the second `MOVING` holds
through 5000 and arrival is at 5001, `WAITING_FINAL` holds through 7001 (with
completed still 0), and the first frame after 7001 — here 7002 — finishes,
removes and counts the vehicle. -/
theorem threeStop_trace_amended :
    ((runFleet 14 geomZero nodesABC edgesABC c3T2000 c3Init).1.map (fun b => b.state) =
      [BusPhase.WAITING]) ∧
    ((runFleet 14 geomZero nodesABC edgesABC c3T3000 c3Init).1.map (fun b => b.state) =
      [BusPhase.WAITING]) ∧
    ((runFleet 14 geomZero nodesABC edgesABC c3T3001 c3Init).1.map (fun b => b.state) =
      [BusPhase.MOVING]) ∧
    ((runFleet 14 geomZero nodesABC edgesABC c3T5000 c3Init).1.map (fun b => b.state) =
      [BusPhase.MOVING]) ∧
    ((runFleet 14 geomZero nodesABC edgesABC c3T5001 c3Init).1.map (fun b => b.state) =
      [BusPhase.WAITING_FINAL]) ∧
    ((runFleet 14 geomZero nodesABC edgesABC c3T7001 c3Init).1.map (fun b => b.state) =
      [BusPhase.WAITING_FINAL]) ∧
    (runFleet 14 geomZero nodesABC edgesABC c3T7001 c3Init).2 1 = 0 ∧
    (runFleet 14 geomZero nodesABC edgesABC c3T7002 c3Init).1 = [] ∧
    (runFleet 14 geomZero nodesABC edgesABC c3T7002 c3Init).2 1 = 1 := by
  refine ⟨?_, ?_, ?_, ?_, ?_, ?_, ?_, c3_run7002_fst, c3_run7002_snd⟩
  · rw [c3_run2000]; simp [busW, busABC, spawnBus]
  · rw [c3_run3000]; simp [busW, busABC, spawnBus]
  · rw [c3_run3001]; simp [busM2, busW, busABC, spawnBus]
  · rw [c3_run5000]; simp [busM2, busW, busABC, spawnBus]
  · rw [c3_run5001]; simp [busWF, busM2, busW, busABC, spawnBus]
  · rw [c3_run7001]; simp [busWF, busM2, busW, busABC, spawnBus]
  · rw [c3_run7001]

lemma busInv_spawn (nodes : String → Node) (id : String) (routeId : ℕ) (color : String)
    (path : List String) (now : ℚ) (h : 2 ≤ path.length) :
    BusInv (spawnBus nodes id routeId color path now) := by
  constructor
  · intro _
    simp [spawnBus]
    omega
  · intro hs
    simp [spawnBus] at hs

lemma busInv_step (lw : ℚ) (g : GeomOracle) (nodes : String → Node) (edges : List Edge)
    (time : ℚ) (b : SimulatedBus) (hb : BusInv b) :
    BusInv (stepBusWith lw g nodes edges time b).1 := by
  obtain ⟨h1, h2⟩ := hb
  cases hs : b.state with
  | FINISHED => simp [stepBusWith, hs, BusInv]
  | WAITING =>
    have h2' := h2 hs
    by_cases ht : STOP_DURATION < time - b.lastStateChangeTime <;>
      simp [stepBusWith, hs, ht, BusInv] <;> omega
  | WAITING_FINAL =>
    by_cases ht : DESTINATION_WAIT < time - b.lastStateChangeTime <;>
      simp [stepBusWith, hs, ht, BusInv]
  | MOVING =>
    have h1' := h1 hs
    have hseg : ¬ (b.path.length - 1 ≤ b.currentSegment) := by omega
    cases hfind : List.find? (fun e => decide (e.«from» = b.path.getD b.currentSegment "") &&
        decide (e.«to» = b.path.getD (b.currentSegment + 1) "")) edges with
    | none =>
      simp only [stepBusWith, hs]
      rw [if_neg hseg]
      simp only [hfind]
      simp [BusInv]
    | some e =>
      simp only [stepBusWith, hs]
      rw [if_neg hseg]
      simp only [hfind]
      by_cases harr : (1 : ℚ) ≤ min ((time - b.lastStateChangeTime) / TRAVEL_DURATION) 1
      · rw [if_pos harr]
        by_cases hfin : b.currentSegment + 1 = b.path.length - 1 <;>
          simp [hfin, BusInv] <;> omega
      · rw [if_neg harr]
        simp [BusInv]
        omega

lemma stepBusWith_overrun (lw : ℚ) (g : GeomOracle) (nodes : String → Node) (edges : List Edge)
    (time : ℚ) (b : SimulatedBus) (hs : b.state = BusPhase.MOVING)
    (hseg : b.path.length - 1 ≤ b.currentSegment) :
    stepBusWith lw g nodes edges time b = ({ b with state := BusPhase.FINISHED }, true) := by
  simp only [stepBusWith, hs]
  rw [if_pos hseg]

lemma stepBusWith_noedge (lw : ℚ) (g : GeomOracle) (nodes : String → Node) (edges : List Edge)
    (time : ℚ) (b : SimulatedBus) (hs : b.state = BusPhase.MOVING)
    (hseg : b.currentSegment < b.path.length - 1)
    (hfind : List.find? (fun e => decide (e.«from» = b.path.getD b.currentSegment "") &&
      decide (e.«to» = b.path.getD (b.currentSegment + 1) "")) edges = none) :
    stepBusWith lw g nodes edges time b = ({ b with state := BusPhase.FINISHED }, true) := by
  have hseg' : ¬ (b.path.length - 1 ≤ b.currentSegment) := by omega
  simp only [stepBusWith, hs]
  rw [if_neg hseg']
  simp only [hfind]

lemma stepBusWith_arrive_final (lw : ℚ) (g : GeomOracle) (nodes : String → Node)
    (edges : List Edge) (time : ℚ) (b : SimulatedBus) (e : Edge)
    (hs : b.state = BusPhase.MOVING)
    (hfin : b.currentSegment + 1 = b.path.length - 1)
    (hfind : List.find? (fun e2 => decide (e2.«from» = b.path.getD b.currentSegment "") &&
      decide (e2.«to» = b.path.getD (b.currentSegment + 1) "")) edges = some e)
    (harr : TRAVEL_DURATION ≤ time - b.lastStateChangeTime) :
    (stepBusWith lw g nodes edges time b).1.state = BusPhase.WAITING_FINAL := by
  have hseg' : ¬ (b.path.length - 1 ≤ b.currentSegment) := by omega
  have harr' : (1 : ℚ) ≤ min ((time - b.lastStateChangeTime) / TRAVEL_DURATION) 1 := by
    refine le_min ?_ le_rfl
    rw [le_div_iff₀ (by norm_num [TRAVEL_DURATION])]
    simpa [TRAVEL_DURATION] using harr
  simp only [stepBusWith, hs]
  rw [if_neg hseg']
  simp only [hfind]
  rw [if_pos harr']
  simp [hfin]

lemma stepBusWith_no_regress (lw : ℚ) (g : GeomOracle) (nodes : String → Node)
    (edges : List Edge) (time : ℚ) (b : SimulatedBus)
    (hs : b.state = BusPhase.WAITING_FINAL ∨ b.state = BusPhase.FINISHED) :
    (stepBusWith lw g nodes edges time b).1.state = BusPhase.WAITING_FINAL ∨
    (stepBusWith lw g nodes edges time b).1.state = BusPhase.FINISHED := by
  rcases hs with hs | hs
  · by_cases ht : DESTINATION_WAIT < time - b.lastStateChangeTime <;> simp [stepBusWith, hs, ht]
  · simp [stepBusWith, hs]

/-- C4: `BusInv` holds for every vehicle the spawner creates on a route of at
least two stops and is preserved by every frame update, and it implies that a
`MOVING` or `WAITING` vehicle's segment index is strictly below
`len(path) - 1`.  A vehicle whose segment index nonetheless reaches
`len(path) - 1` is finished on its next frame; a vehicle arriving on its last
segment (`currentSegment + 1 = len(path) - 1`, matching edge present, travel
time elapsed) transitions to `WAITING_FINAL`; and from `WAITING_FINAL` or
`FINISHED` a vehicle never returns to `MOVING` or `WAITING`. -/
theorem segmentIndex_invariant (lw : ℚ) (g : GeomOracle) (nodes : String → Node)
    (edges : List Edge) :
    (∀ (id : String) (routeId : ℕ) (color : String) (path : List String) (now : ℚ),
      2 ≤ path.length → BusInv (spawnBus nodes id routeId color path now)) ∧
    (∀ (time : ℚ) (b : SimulatedBus), BusInv b →
      BusInv (stepBusWith lw g nodes edges time b).1) ∧
    (∀ b : SimulatedBus, BusInv b →
      b.state = BusPhase.MOVING ∨ b.state = BusPhase.WAITING →
      b.currentSegment < b.path.length - 1) ∧
    (∀ (time : ℚ) (b : SimulatedBus), b.state = BusPhase.MOVING →
      b.path.length - 1 ≤ b.currentSegment →
      stepBusWith lw g nodes edges time b = ({ b with state := BusPhase.FINISHED }, true)) ∧
    (∀ (time : ℚ) (b : SimulatedBus) (e : Edge), b.state = BusPhase.MOVING →
      b.currentSegment + 1 = b.path.length - 1 →
      List.find? (fun e2 => decide (e2.«from» = b.path.getD b.currentSegment "") &&
        decide (e2.«to» = b.path.getD (b.currentSegment + 1) "")) edges = some e →
      TRAVEL_DURATION ≤ time - b.lastStateChangeTime →
      (stepBusWith lw g nodes edges time b).1.state = BusPhase.WAITING_FINAL) ∧
    (∀ (time : ℚ) (b : SimulatedBus),
      b.state = BusPhase.WAITING_FINAL ∨ b.state = BusPhase.FINISHED →
      (stepBusWith lw g nodes edges time b).1.state = BusPhase.WAITING_FINAL ∨
      (stepBusWith lw g nodes edges time b).1.state = BusPhase.FINISHED) := by
  refine ⟨?_, ?_, ?_, ?_, ?_, ?_⟩
  · intro id routeId color path now h
    exact busInv_spawn nodes id routeId color path now h
  · intro time b hb
    exact busInv_step lw g nodes edges time b hb
  · intro b hb hmw
    rcases hmw with hm | hw
    · exact hb.1 hm
    · have := hb.2 hw
      omega
  · intro time b hs hseg
    exact stepBusWith_overrun lw g nodes edges time b hs hseg
  · intro time b e hs hfin hfind harr
    exact stepBusWith_arrive_final lw g nodes edges time b e hs hfin hfind harr
  · intro time b hs
    exact stepBusWith_no_regress lw g nodes edges time b hs

/-- Witness for C4 on the concrete 3-stop scenario. -/
theorem segmentIndex_invariant_witness :
    BusInv (spawnBus nodesABC "w" 1 "#fff" ["A", "B", "C"] 0) ∧
    stepBusWith 14 geomZero nodesABC edgesABC 0 { busABC with currentSegment := 2 } =
      ({ busABC with currentSegment := 2, state := BusPhase.FINISHED }, true) := by
  constructor
  · exact (segmentIndex_invariant 14 geomZero nodesABC edgesABC).1 "w" 1 "#fff"
      ["A", "B", "C"] 0 (by norm_num)
  · exact (segmentIndex_invariant 14 geomZero nodesABC edgesABC).2.2.2.1 0
      { busABC with currentSegment := 2 } rfl (by simp [busABC, spawnBus])

lemma stepBusWith_flag_iff (lw : ℚ) (g : GeomOracle) (nodes : String → Node) (edges : List Edge)
    (time : ℚ) (b : SimulatedBus) (hb : b.state ≠ BusPhase.FINISHED) :
    (stepBusWith lw g nodes edges time b).2 = true ↔
      (stepBusWith lw g nodes edges time b).1.state = BusPhase.FINISHED := by
  cases hs : b.state with
  | FINISHED => exact absurd hs hb
  | WAITING =>
    by_cases ht : STOP_DURATION < time - b.lastStateChangeTime <;>
      simp [stepBusWith, hs, ht]
  | WAITING_FINAL =>
    by_cases ht : DESTINATION_WAIT < time - b.lastStateChangeTime <;>
      simp [stepBusWith, hs, ht]
  | MOVING =>
    by_cases hseg : b.path.length - 1 ≤ b.currentSegment
    · rw [stepBusWith_overrun lw g nodes edges time b hs hseg]
      simp
    · cases hfind : List.find? (fun e => decide (e.«from» = b.path.getD b.currentSegment "") &&
          decide (e.«to» = b.path.getD (b.currentSegment + 1) "")) edges with
      | none =>
        rw [stepBusWith_noedge lw g nodes edges time b hs (by omega) hfind]
        simp
      | some e =>
        simp only [stepBusWith, hs]
        rw [if_neg hseg]
        simp only [hfind]
        by_cases harr : (1 : ℚ) ≤ min ((time - b.lastStateChangeTime) / TRAVEL_DURATION) 1
        · rw [if_pos harr]
          by_cases hfin : b.currentSegment + 1 = b.path.length - 1 <;> simp [hfin]
        · rw [if_neg harr]
          simp

lemma count_finished_routes (r : ℕ) :
    ∀ l : List (SimulatedBus × Bool),
      (∀ p ∈ l, (p.2 = true ↔ p.1.state = BusPhase.FINISHED)) →
      ((l.filter (fun p => p.2)).map (fun p => p.1.routeId)).count r =
        l.countP (fun p => decide (p.1.state = BusPhase.FINISHED) &&
          decide (p.1.routeId = r)) := by
  intro l
  induction l with
  | nil => intro _; rfl
  | cons p ps ih =>
    intro h
    have hp := h p (List.mem_cons_self p ps)
    have hps := fun q hq => h q (List.mem_cons_of_mem p hq)
    cases hb : p.2 with
    | true =>
      have hf : p.1.state = BusPhase.FINISHED := hp.mp hb
      simp only [List.filter_cons, hb, if_pos, List.map_cons, List.count_cons,
        List.countP_cons, hf, ih hps]
      simp [List.count_cons]
    | false =>
      have hf : ¬ p.1.state = BusPhase.FINISHED := fun hc => by
        rw [hp.mpr hc] at hb
        cases hb
      have hpred : (decide (p.1.state = BusPhase.FINISHED) &&
          decide (p.1.routeId = r)) = false := by
        simp [hf]
      simp only [List.filter_cons, hb, Bool.false_eq_true, if_false, List.countP_cons, hpred]
      simpa using ih hps

lemma length_filter_ne_add_countP (m : List SimulatedBus) :
    m.length = (m.filter (fun b => decide (b.state ≠ BusPhase.FINISHED))).length +
      m.countP (fun b => decide (b.state = BusPhase.FINISHED)) := by
  induction m with
  | nil => rfl
  | cons b bs ih =>
    by_cases hb : b.state = BusPhase.FINISHED <;>
      simp [List.filter_cons, List.countP_cons, hb, ih] <;> omega

lemma handle_counts_le (lw : ℚ) (g : GeomOracle) (nodes : String → Node) (edges : List Edge)
    (time : ℚ) (fleet : List SimulatedBus) (c : ℕ → ℕ) :
    ∀ r, c r ≤ (handleMultiBusAnimationWith lw g nodes edges time fleet c).2 r := by
  intro r
  simp only [handleMultiBusAnimationWith]
  exact Nat.le_add_right _ _

lemma runFleet_counts_mono (lw : ℚ) (g : GeomOracle) (nodes : String → Node)
    (edges : List Edge) :
    ∀ (times : List ℚ) (st : List SimulatedBus × (ℕ → ℕ)) (r : ℕ),
      st.2 r ≤ (runFleet lw g nodes edges times st).2 r := by
  intro times
  induction times with
  | nil => intro st r; exact le_rfl
  | cons t ts ih =>
    intro st r
    exact le_trans (handle_counts_le lw g nodes edges t st.1 st.2 r)
      (ih (handleMultiBusAnimationWith lw g nodes edges t st.1 st.2) r)

/-- C5: in every frame the completed counters never decrease; the surviving
fleet contains no `FINISHED` vehicle; the counter increment for route `r` is
exactly the number of vehicles that turned `FINISHED` in this frame on route
`r` (vehicles already `FINISHED` are filtered out before stepping, so no
vehicle can be counted twice); the stepped vehicles are partitioned into the
survivors and the newly finished, so a vehicle is counted exactly in the
frame that removes it from the active set; and along any frame sequence the
counters are monotone. -/
theorem completedCounters_consistent (lw : ℚ) (g : GeomOracle) (nodes : String → Node)
    (edges : List Edge) (time : ℚ) (fleet : List SimulatedBus) (c : ℕ → ℕ) :
    (∀ r, c r ≤ (handleMultiBusAnimationWith lw g nodes edges time fleet c).2 r) ∧
    (∀ b ∈ (handleMultiBusAnimationWith lw g nodes edges time fleet c).1,
      b.state ≠ BusPhase.FINISHED) ∧
    (∀ r, (handleMultiBusAnimationWith lw g nodes edges time fleet c).2 r =
      c r + ((fleet.filter (fun b => decide (b.state ≠ BusPhase.FINISHED))).map
        (stepBusWith lw g nodes edges time)).countP
          (fun p => decide (p.1.state = BusPhase.FINISHED) && decide (p.1.routeId = r))) ∧
    (((fleet.filter (fun b => decide (b.state ≠ BusPhase.FINISHED))).map
        (stepBusWith lw g nodes edges time)).length =
      (handleMultiBusAnimationWith lw g nodes edges time fleet c).1.length +
        ((fleet.filter (fun b => decide (b.state ≠ BusPhase.FINISHED))).map
          (stepBusWith lw g nodes edges time)).countP
            (fun p => decide (p.1.state = BusPhase.FINISHED))) ∧
    (∀ (times : List ℚ) (st : List SimulatedBus × (ℕ → ℕ)) (r : ℕ),
      st.2 r ≤ (runFleet lw g nodes edges times st).2 r) := by
  have hflag : ∀ p ∈ (fleet.filter (fun b => decide (b.state ≠ BusPhase.FINISHED))).map
      (stepBusWith lw g nodes edges time),
      (p.2 = true ↔ p.1.state = BusPhase.FINISHED) := by
    intro p hp
    obtain ⟨b, hb, rfl⟩ := List.mem_map.mp hp
    have hb2 : b.state ≠ BusPhase.FINISHED := by
      have := List.of_mem_filter hb
      simpa using this
    exact stepBusWith_flag_iff lw g nodes edges time b hb2
  refine ⟨handle_counts_le lw g nodes edges time fleet c, ?_, ?_, ?_,
    runFleet_counts_mono lw g nodes edges⟩
  · intro b hb
    simp only [handleMultiBusAnimationWith] at hb
    have := List.of_mem_filter hb
    simpa using this
  · intro r
    simp only [handleMultiBusAnimationWith]
    rw [count_finished_routes r _ hflag]
  · simp only [handleMultiBusAnimationWith]
    have hpart := length_filter_ne_add_countP
      (((fleet.filter (fun b => decide (b.state ≠ BusPhase.FINISHED))).map
        (stepBusWith lw g nodes edges time)).map Prod.fst)
    rw [List.length_map] at hpart
    rw [hpart, List.countP_map]
    rfl

/-- Witness for C5 on the concrete 3-stop scenario. -/
theorem completedCounters_consistent_witness :
    (0 : ℕ) ≤ (handleMultiBusAnimationWith 14 geomZero nodesABC edgesABC 0 [busABC]
      (fun _ => 0)).2 1 ∧
    ∀ b ∈ (handleMultiBusAnimationWith 14 geomZero nodesABC edgesABC 0 [busABC]
      (fun _ => 0)).1, b.state ≠ BusPhase.FINISHED :=
  ⟨(completedCounters_consistent 14 geomZero nodesABC edgesABC 0 [busABC] (fun _ => 0)).1 1,
   (completedCounters_consistent 14 geomZero nodesABC edgesABC 0 [busABC] (fun _ => 0)).2.1⟩

lemma handle_isolation (lw : ℚ) (g : GeomOracle) (nodes : String → Node) (edges : List Edge)
    (time : ℚ) (b : SimulatedBus) (l1 l2 : List SimulatedBus) (c : ℕ → ℕ)
    (hMoving : b.state = BusPhase.MOVING)
    (hstep : stepBusWith lw g nodes edges time b = ({ b with state := BusPhase.FINISHED }, true)) :
    (handleMultiBusAnimationWith lw g nodes edges time (l1 ++ b :: l2) c).1 =
      (handleMultiBusAnimationWith lw g nodes edges time (l1 ++ l2) c).1 ∧
    ∀ r, (handleMultiBusAnimationWith lw g nodes edges time (l1 ++ b :: l2) c).2 r =
      (handleMultiBusAnimationWith lw g nodes edges time (l1 ++ l2) c).2 r +
        (if b.routeId = r then 1 else 0) := by
  constructor
  · simp [handleMultiBusAnimationWith, List.filter_append, List.filter_cons, List.map_append,
      hMoving, hstep]
  · intro r
    simp [handleMultiBusAnimationWith, List.filter_append, List.filter_cons, List.map_append,
      List.count_append, List.count_cons, hMoving, hstep]
    by_cases hr : b.routeId = r <;> simp [hr] <;> omega

/-- C6: a `MOVING` vehicle whose current segment has no matching edge is set
to `FINISHED` with its completion flag raised in that same frame (the update
is a total function, so no exception escapes), and the frame's result on any
fleet containing it is exactly the result on the fleet with that vehicle
removed, except for the one extra completion on its own route: no other
vehicle is affected. -/
theorem missingEdge_finishes_isolated (lw : ℚ) (g : GeomOracle) (nodes : String → Node)
    (edges : List Edge) (time : ℚ) (b : SimulatedBus) (l1 l2 : List SimulatedBus) (c : ℕ → ℕ)
    (hMoving : b.state = BusPhase.MOVING)
    (hseg : b.currentSegment < b.path.length - 1)
    (hfind : List.find? (fun e => decide (e.«from» = b.path.getD b.currentSegment "") &&
      decide (e.«to» = b.path.getD (b.currentSegment + 1) "")) edges = none) :
    stepBusWith lw g nodes edges time b = ({ b with state := BusPhase.FINISHED }, true) ∧
    (handleMultiBusAnimationWith lw g nodes edges time (l1 ++ b :: l2) c).1 =
      (handleMultiBusAnimationWith lw g nodes edges time (l1 ++ l2) c).1 ∧
    ∀ r, (handleMultiBusAnimationWith lw g nodes edges time (l1 ++ b :: l2) c).2 r =
      (handleMultiBusAnimationWith lw g nodes edges time (l1 ++ l2) c).2 r +
        (if b.routeId = r then 1 else 0) := by
  have hstep := stepBusWith_noedge lw g nodes edges time b hMoving hseg hfind
  have hiso := handle_isolation lw g nodes edges time b l1 l2 c hMoving hstep
  exact ⟨hstep, hiso.1, hiso.2⟩

/-- Witness for C6: the 3-stop vehicle on an empty edge list. -/
theorem missingEdge_finishes_isolated_witness :
    stepBusWith 14 geomZero nodesABC [] 0 busABC = ({ busABC with state := BusPhase.FINISHED }, true) ∧
    (handleMultiBusAnimationWith 14 geomZero nodesABC [] 0 ([] ++ busABC :: []) (fun _ => 0)).1 =
      (handleMultiBusAnimationWith 14 geomZero nodesABC [] 0 ([] ++ []) (fun _ => 0)).1 ∧
    ∀ r, (handleMultiBusAnimationWith 14 geomZero nodesABC [] 0 ([] ++ busABC :: [])
        (fun _ => 0)).2 r =
      (handleMultiBusAnimationWith 14 geomZero nodesABC [] 0 ([] ++ []) (fun _ => 0)).2 r +
        (if busABC.routeId = r then 1 else 0) :=
  missingEdge_finishes_isolated 14 geomZero nodesABC [] 0 busABC [] [] (fun _ => 0)
    rfl (by simp [busABC, spawnBus]) rfl

lemma stepBusWith_lane_core (lw : ℚ) (g : GeomOracle) (nodes : String → Node)
    (edges : List Edge) (time : ℚ) (b : SimulatedBus) :
    busCore (stepBusWith lw g nodes edges time b).1 =
      busCore (stepBusWith 0 g nodes edges time b).1 ∧
    (stepBusWith lw g nodes edges time b).2 = (stepBusWith 0 g nodes edges time b).2 := by
  cases hs : b.state with
  | FINISHED => simp [stepBusWith, hs]
  | WAITING =>
    by_cases ht : STOP_DURATION < time - b.lastStateChangeTime <;>
      simp [stepBusWith, hs, ht]
  | WAITING_FINAL =>
    by_cases ht : DESTINATION_WAIT < time - b.lastStateChangeTime <;>
      simp [stepBusWith, hs, ht]
  | MOVING =>
    by_cases hseg : b.path.length - 1 ≤ b.currentSegment
    · simp [stepBusWith_overrun lw g nodes edges time b hs hseg,
        stepBusWith_overrun 0 g nodes edges time b hs hseg]
    · cases hfind : List.find? (fun e => decide (e.«from» = b.path.getD b.currentSegment "") &&
          decide (e.«to» = b.path.getD (b.currentSegment + 1) "")) edges with
      | none =>
        simp [stepBusWith_noedge lw g nodes edges time b hs (by omega) hfind,
          stepBusWith_noedge 0 g nodes edges time b hs (by omega) hfind]
      | some e =>
        simp only [stepBusWith, hs]
        rw [if_neg hseg, if_neg hseg]
        simp only [hfind]
        by_cases harr : (1 : ℚ) ≤ min ((time - b.lastStateChangeTime) / TRAVEL_DURATION) 1
        · rw [if_pos harr, if_pos harr]
          simp [busCore]
        · rw [if_neg harr, if_neg harr]
          simp [busCore]

lemma pipeline_lane (lw : ℚ) (g : GeomOracle) (nodes : String → Node) (edges : List Edge)
    (time : ℚ) :
    ∀ F : List SimulatedBus,
      (((F.map (stepBusWith lw g nodes edges time)).map Prod.fst).filter
        (fun b2 => decide (b2.state ≠ BusPhase.FINISHED))).map busCore =
        (((F.map (stepBusWith 0 g nodes edges time)).map Prod.fst).filter
          (fun b2 => decide (b2.state ≠ BusPhase.FINISHED))).map busCore ∧
      ∀ r, (((F.map (stepBusWith lw g nodes edges time)).filter (fun p => p.2)).map
          (fun p => p.1.routeId)).count r =
        (((F.map (stepBusWith 0 g nodes edges time)).filter (fun p => p.2)).map
          (fun p => p.1.routeId)).count r := by
  intro F
  induction F with
  | nil => exact ⟨rfl, fun _ => rfl⟩
  | cons b F ih =>
    obtain ⟨hcore, hflag⟩ := stepBusWith_lane_core lw g nodes edges time b
    have hstate : (stepBusWith lw g nodes edges time b).1.state =
        (stepBusWith 0 g nodes edges time b).1.state :=
      congrArg (fun t : String × ℕ × String × List String × ℕ × BusPhase × ℚ × ℚ =>
        t.2.2.2.2.2.1) hcore
    have hroute : (stepBusWith lw g nodes edges time b).1.routeId =
        (stepBusWith 0 g nodes edges time b).1.routeId :=
      congrArg (fun t : String × ℕ × String × List String × ℕ × BusPhase × ℚ × ℚ =>
        t.2.1) hcore
    constructor
    · simp only [List.map_cons]
      by_cases hf : (stepBusWith lw g nodes edges time b).1.state = BusPhase.FINISHED
      · have hf0 : (stepBusWith 0 g nodes edges time b).1.state = BusPhase.FINISHED := by
          rw [← hstate]; exact hf
        rw [List.filter_cons_of_neg (by simp [hf]), List.filter_cons_of_neg (by simp [hf0])]
        exact ih.1
      · have hf0 : ¬ (stepBusWith 0 g nodes edges time b).1.state = BusPhase.FINISHED := by
          rw [← hstate]; exact hf
        rw [List.filter_cons_of_pos (by simp [hf]), List.filter_cons_of_pos (by simp [hf0])]
        simp only [List.map_cons]
        rw [hcore]
        rw [ih.1]
    · intro r
      simp only [List.map_cons]
      cases hb2 : (stepBusWith lw g nodes edges time b).2 with
      | true =>
        have hb20 : (stepBusWith 0 g nodes edges time b).2 = true := by
          rw [← hflag]; exact hb2
        rw [List.filter_cons_of_pos (by simp [hb2]), List.filter_cons_of_pos (by simp [hb20])]
        simp only [List.map_cons, List.count_cons, hroute, ih.2 r]
      | false =>
        have hb20 : (stepBusWith 0 g nodes edges time b).2 = false := by
          rw [← hflag]; exact hb2
        rw [List.filter_cons_of_neg (by simp [hb2]), List.filter_cons_of_neg (by simp [hb20])]
        exact ih.2 r

lemma handle_lane (lw : ℚ) (g : GeomOracle) (nodes : String → Node) (edges : List Edge)
    (time : ℚ) (fleet : List SimulatedBus) (c : ℕ → ℕ) :
    (handleMultiBusAnimationWith lw g nodes edges time fleet c).1.map busCore =
      (handleMultiBusAnimationWith 0 g nodes edges time fleet c).1.map busCore ∧
    ∀ r, (handleMultiBusAnimationWith lw g nodes edges time fleet c).2 r =
      (handleMultiBusAnimationWith 0 g nodes edges time fleet c).2 r := by
  have hp := pipeline_lane lw g nodes edges time
    (fleet.filter (fun b => decide (b.state ≠ BusPhase.FINISHED)))
  constructor
  · simpa only [handleMultiBusAnimationWith] using hp.1
  · intro r
    simp only [handleMultiBusAnimationWith]
    rw [hp.2 r]

lemma filter_routeId_length_of_core (k : ℕ) :
    ∀ m1 m2 : List SimulatedBus, m1.map busCore = m2.map busCore →
      (m1.filter (fun b => decide (b.routeId = k))).length =
        (m2.filter (fun b => decide (b.routeId = k))).length := by
  intro m1
  induction m1 with
  | nil =>
    intro m2 h
    cases m2 with
    | nil => rfl
    | cons b bs => simp at h
  | cons a as ih =>
    intro m2 h
    cases m2 with
    | nil => simp at h
    | cons b bs =>
      simp only [List.map_cons, List.cons.injEq] at h
      have hr : a.routeId = b.routeId :=
        congrArg (fun t : String × ℕ × String × List String × ℕ × BusPhase × ℚ × ℚ =>
          t.2.1) h.1
      by_cases hk : a.routeId = k
      · rw [List.filter_cons_of_pos (by simp [hk]),
          List.filter_cons_of_pos (by simp [← hr, hk])]
        simp [ih bs h.2]
      · rw [List.filter_cons_of_neg (by simp [hk]),
          List.filter_cons_of_neg (by simp [← hr, hk])]
        exact ih bs h.2

lemma simulationStats_lane (lw : ℚ) (g : GeomOracle) (nodes : String → Node)
    (edges : List Edge) (time : ℚ) (fleet : List SimulatedBus) (c : ℕ → ℕ)
    (ra : List RouteAnalytics) :
    simulationStats ra (handleMultiBusAnimationWith lw g nodes edges time fleet c).1
        (handleMultiBusAnimationWith lw g nodes edges time fleet c).2 =
      simulationStats ra (handleMultiBusAnimationWith 0 g nodes edges time fleet c).1
        (handleMultiBusAnimationWith 0 g nodes edges time fleet c).2 := by
  obtain ⟨h1, h2⟩ := handle_lane lw g nodes edges time fleet c
  unfold simulationStats
  apply List.map_congr_left
  intro r _
  have hactive := filter_routeId_length_of_core r.route_id _ _ h1
  rw [hactive, h2 r.route_id]

/-- C7: replacing the source's `laneWidth = 14` by `0` (which makes the
lane-separation offset vanish) changes nothing but the rendered `x`/`y`:
the stepped vehicle's id, route, color, path, segment index, state,
`lastStateChangeTime` and rotation are identical, the completion flag is
identical, and at the frame level the surviving fleet (up to `x`/`y`), the
completed counters and the emitted telemetry are identical. -/
theorem laneOffset_cosmetic (lw : ℚ) (g : GeomOracle) (nodes : String → Node)
    (edges : List Edge) (time : ℚ) (bus : SimulatedBus) (fleet : List SimulatedBus)
    (c : ℕ → ℕ) (routesAnalytics : List RouteAnalytics) :
    busCore (stepBusWith lw g nodes edges time bus).1 =
      busCore (stepBusWith 0 g nodes edges time bus).1 ∧
    (stepBusWith lw g nodes edges time bus).2 = (stepBusWith 0 g nodes edges time bus).2 ∧
    (handleMultiBusAnimationWith lw g nodes edges time fleet c).1.map busCore =
      (handleMultiBusAnimationWith 0 g nodes edges time fleet c).1.map busCore ∧
    (∀ r, (handleMultiBusAnimationWith lw g nodes edges time fleet c).2 r =
      (handleMultiBusAnimationWith 0 g nodes edges time fleet c).2 r) ∧
    simulationStats routesAnalytics
        (handleMultiBusAnimationWith lw g nodes edges time fleet c).1
        (handleMultiBusAnimationWith lw g nodes edges time fleet c).2 =
      simulationStats routesAnalytics
        (handleMultiBusAnimationWith 0 g nodes edges time fleet c).1
        (handleMultiBusAnimationWith 0 g nodes edges time fleet c).2 := by
  obtain ⟨hc, hf⟩ := stepBusWith_lane_core lw g nodes edges time bus
  obtain ⟨h1, h2⟩ := handle_lane lw g nodes edges time fleet c
  exact ⟨hc, hf, h1, h2, simulationStats_lane lw g nodes edges time fleet c routesAnalytics⟩

example : findPath "A" "C" edgesABC = some ["A", "B", "C"] := by decide

example : findPath "C" "A" edgesABC = none := by decide

example : findPath "A" "A" [] = some ["A"] := by decide

example : findPath "Z" "C" edgesABC = none := by decide

example :
    findPath "A" "C" [⟨"A", "B", ⟨0, 0⟩⟩, ⟨"B", "A", ⟨0, 0⟩⟩, ⟨"B", "C", ⟨0, 0⟩⟩] =
      some ["A", "B", "C"] := by decide

lemma pushNeighbors_queue_ext (path : List String) :
    ∀ (ns : List String) (q : List (String × List String)) (v : List String),
      ∃ nw, (pushNeighbors path ns q v).1 = q ++ nw ∧
        ∀ zp ∈ nw, zp.1 ∈ ns ∧ zp.1 ∉ v ∧ zp.2 = path ++ [zp.1] := by
  intro ns
  induction ns with
  | nil => intro q v; exact ⟨[], by simp [pushNeighbors], by simp⟩
  | cons n rest ih =>
    intro q v
    by_cases hn : n ∈ v
    · obtain ⟨nw, h1, h2⟩ := ih q v
      refine ⟨nw, by simp [pushNeighbors, hn, h1], ?_⟩
      intro zp hzp
      obtain ⟨a, b, c⟩ := h2 zp hzp
      exact ⟨List.mem_cons_of_mem n a, b, c⟩
    · obtain ⟨nw, h1, h2⟩ := ih (q ++ [(n, path ++ [n])]) (v ++ [n])
      refine ⟨(n, path ++ [n]) :: nw, ?_, ?_⟩
      · simp only [pushNeighbors, if_neg hn, h1, List.append_assoc, List.singleton_append]
      · intro zp hzp
        rcases List.mem_cons.mp hzp with rfl | hzp'
        · exact ⟨List.mem_cons_self n rest, hn, rfl⟩
        · obtain ⟨a, b, c⟩ := h2 zp hzp'
          refine ⟨List.mem_cons_of_mem n a, ?_, c⟩
          intro hv
          exact b (List.mem_append_left [n] hv)

lemma pushNeighbors_visited (path : List String) :
    ∀ (ns : List String) (q : List (String × List String)) (v : List String) (z : String),
      z ∈ (pushNeighbors path ns q v).2 ↔ z ∈ v ∨ z ∈ ns := by
  intro ns
  induction ns with
  | nil => intro q v z; simp [pushNeighbors]
  | cons n rest ih =>
    intro q v z
    by_cases hn : n ∈ v
    · simp only [pushNeighbors, if_pos hn, ih]
      constructor
      · rintro (h | h)
        · exact Or.inl h
        · exact Or.inr (List.mem_cons_of_mem n h)
      · rintro (h | h)
        · exact Or.inl h
        · rcases List.mem_cons.mp h with rfl | h'
          · exact Or.inl hn
          · exact Or.inr h'
    · simp only [pushNeighbors, if_neg hn, ih]
      constructor
      · rintro (h | h)
        · rcases List.mem_append.mp h with h' | h'
          · exact Or.inl h'
          · simp only [List.mem_singleton] at h'
            exact Or.inr (h' ▸ List.mem_cons_self n rest)
        · exact Or.inr (List.mem_cons_of_mem n h)
      · rintro (h | h)
        · exact Or.inl (List.mem_append_left [n] h)
        · rcases List.mem_cons.mp h with rfl | h'
          · exact Or.inl (List.mem_append_right v (by simp))
          · exact Or.inr h'

lemma pushNeighbors_covers (path : List String) :
    ∀ (ns : List String) (q : List (String × List String)) (v : List String) (n : String),
      n ∈ ns → n ∉ v → (n, path ++ [n]) ∈ (pushNeighbors path ns q v).1 := by
  intro ns
  induction ns with
  | nil => intro q v n h; cases h
  | cons m rest ih =>
    intro q v n hmem hnv
    by_cases hm : m ∈ v
    · simp only [pushNeighbors, if_pos hm]
      rcases List.mem_cons.mp hmem with rfl | h'
      · exact absurd hm hnv
      · exact ih q v n h' hnv
    · simp only [pushNeighbors, if_neg hm]
      rcases List.mem_cons.mp hmem with rfl | h'
      · obtain ⟨nw, h1, _⟩ := pushNeighbors_queue_ext path rest (q ++ [(n, path ++ [n])])
          (v ++ [n])
        rw [h1]
        exact List.mem_append_left nw (List.mem_append_right q (by simp))
      · by_cases hnn : n = m
        · subst hnn
          obtain ⟨nw, h1, _⟩ := pushNeighbors_queue_ext path rest (q ++ [(n, path ++ [n])])
            (v ++ [n])
          rw [h1]
          exact List.mem_append_left nw (List.mem_append_right q (by simp))
        · apply ih
          · exact h'
          · intro hv
            rcases List.mem_append.mp hv with h2 | h2
            · exact hnv h2
            · simp only [List.mem_singleton] at h2
              exact hnn h2

lemma length_filter_ne_of_nodup :
    ∀ {A : List String}, A.Nodup → ∀ {n : String}, n ∈ A →
      A.length = (A.filter (fun t => decide (¬ t = n))).length + 1 := by
  intro A
  induction A with
  | nil => intro _ n hn; cases hn
  | cons a as ih =>
    intro hA n hn
    have hA' := List.nodup_cons.mp hA
    by_cases han : a = n
    · subst han
      have hfa : ¬ ((fun t => decide (¬ t = a)) a) = true := by simp
      rw [@List.filter_cons_of_neg String (fun t => decide (¬ t = a)) a as hfa]
      have heq : as.filter (fun t => decide (¬ t = a)) = as := by
        apply List.filter_eq_self.mpr
        intro t ht
        simp only [decide_eq_true_eq]
        intro hta
        exact hA'.1 (hta ▸ ht)
      rw [heq]
      simp
    · have hfa : ((fun t => decide (¬ t = n)) a) = true := by simpa using han
      rw [@List.filter_cons_of_pos String (fun t => decide (¬ t = n)) a as hfa]
      have hn' : n ∈ as := by
        rcases List.mem_cons.mp hn with h | h
        · exact absurd h.symm han
        · exact h
      simp only [List.length_cons, ih hA'.2 hn']

lemma targetsNotVisited_snoc (edges : List Edge) (v : List String) (n : String)
    (hn : n ∈ edges.map (fun e => e.«to»)) (hv : n ∉ v) :
    targetsNotVisited edges v = targetsNotVisited edges (v ++ [n]) + 1 := by
  unfold targetsNotVisited
  have hsub : ∀ t : String, (decide (t ∉ v ++ [n])) =
      ((decide (¬ t = n)) && (decide (t ∉ v))) := by
    intro t
    by_cases h1 : t ∈ v <;> by_cases h2 : t = n <;> simp [h1, h2]
  rw [List.filter_congr (fun t _ => hsub t), ← List.filter_filter]
  set A := ((edges.map (fun e => e.«to»)).dedup).filter (fun t => decide (t ∉ v)) with hA
  have hAnodup : A.Nodup := List.Nodup.filter _ (List.nodup_dedup _)
  have hnA : n ∈ A := by
    rw [hA]
    apply List.mem_filter.mpr
    exact ⟨List.mem_dedup.mpr hn, by simpa using hv⟩
  exact length_filter_ne_of_nodup hAnodup hnA

lemma neighborsOf_subset_targets (edges : List Edge) (a : String) :
    ∀ n ∈ neighborsOf edges a, n ∈ edges.map (fun e => e.«to») := by
  intro n hn
  simp only [neighborsOf, List.mem_map, List.mem_filter] at hn
  obtain ⟨e, ⟨he, _⟩, rfl⟩ := hn
  exact List.mem_map.mpr ⟨e, he, rfl⟩

lemma pushNeighbors_measure (edges : List Edge) (path : List String) :
    ∀ (ns : List String) (q : List (String × List String)) (v : List String),
      (∀ n ∈ ns, n ∈ edges.map (fun e => e.«to»)) →
      (pushNeighbors path ns q v).1.length + targetsNotVisited edges
        (pushNeighbors path ns q v).2 = q.length + targetsNotVisited edges v := by
  intro ns
  induction ns with
  | nil => intro q v _; simp [pushNeighbors]
  | cons n rest ih =>
    intro q v hns
    have hrest := fun m hm => hns m (List.mem_cons_of_mem n hm)
    by_cases hn : n ∈ v
    · simp only [pushNeighbors, if_pos hn]
      exact ih q v hrest
    · simp only [pushNeighbors, if_neg hn]
      rw [ih (q ++ [(n, path ++ [n])]) (v ++ [n]) hrest]
      simp only [List.length_append, List.length_singleton]
      have := targetsNotVisited_snoc edges v n (hns n (List.mem_cons_self n rest)) hn
      omega

lemma bfsLoop_isSome (edges : List Edge) (endId : String) :
    ∀ (fuel : ℕ) (q : List (String × List String)) (v : List String),
      bfsMeasure edges q v < fuel → (bfsLoop edges endId fuel q v).isSome = true := by
  intro fuel
  induction fuel with
  | zero => intro q v h; omega
  | succ fuel ih =>
    intro q v h
    match q with
    | [] => simp [bfsLoop]
    | c :: rest =>
      by_cases hc : c.1 = endId
      · simp [bfsLoop, hc]
      · simp only [bfsLoop, if_neg hc]
        apply ih
        have hm := pushNeighbors_measure edges c.2 (neighborsOf edges c.1) rest v
          (neighborsOf_subset_targets edges c.1)
        unfold bfsMeasure at h ⊢
        simp only [List.length_cons] at h
        omega

/-- C9: the BFS loop of `findPath` always exhausts its queue within the fuel
`findPath` provides — on every finite edge list (cyclic graphs included) and
every pair of stop ids.  Every non-start node is enqueued at most once via
the visited set (each push strictly decreases
`queue length + unvisited edge targets`), so the loop yields a result instead
of running forever, and `findPath` returns exactly that result. -/
theorem findPath_terminates (edges : List Edge) (startId endId : String) :
    (bfsLoop edges endId (bfsFuel edges) [(startId, [startId])] []).isSome = true ∧
    (startId ≠ endId → ∃ r, bfsLoop edges endId (bfsFuel edges) [(startId, [startId])] [] =
      some r ∧ findPath startId endId edges = r) := by
  have hsome : (bfsLoop edges endId (bfsFuel edges) [(startId, [startId])] []).isSome = true := by
    apply bfsLoop_isSome
    unfold bfsMeasure targetsNotVisited bfsFuel
    have h1 : (((edges.map (fun e => e.«to»)).dedup).filter
        (fun t => decide (t ∉ ([] : List String)))).length ≤ edges.length := by
      calc (((edges.map (fun e => e.«to»)).dedup).filter
          (fun t => decide (t ∉ ([] : List String)))).length
          ≤ ((edges.map (fun e => e.«to»)).dedup).length := List.length_filter_le _ _
        _ ≤ (edges.map (fun e => e.«to»)).length :=
            List.Sublist.length_le (List.dedup_sublist _)
        _ = edges.length := List.length_map _ _
    simp only [List.length_cons, List.length_nil]
    omega
  refine ⟨hsome, ?_⟩
  intro hne
  obtain ⟨r, hr⟩ := Option.isSome_iff_exists.mp hsome
  refine ⟨r, hr, ?_⟩
  simp only [findPath, if_neg hne, hr]

/-- Witness for C9's conditional part at a concrete cyclic graph. -/
theorem findPath_terminates_witness :
    ∃ r, bfsLoop [⟨"A", "B", ⟨0, 0⟩⟩, ⟨"B", "A", ⟨0, 0⟩⟩] "B"
        (bfsFuel [⟨"A", "B", ⟨0, 0⟩⟩, ⟨"B", "A", ⟨0, 0⟩⟩]) [("A", ["A"])] [] = some r ∧
      findPath "A" "B" [⟨"A", "B", ⟨0, 0⟩⟩, ⟨"B", "A", ⟨0, 0⟩⟩] = r :=
  (findPath_terminates [⟨"A", "B", ⟨0, 0⟩⟩, ⟨"B", "A", ⟨0, 0⟩⟩] "A" "B").2 (by decide)

lemma IsPath.length_pos {edges : List Edge} {s x : String} {p : List String}
    (h : IsPath edges s x p) : 1 ≤ p.length := by
  induction h with
  | refl => simp
  | snoc _ _ _ => simp

lemma IsPath.eq_of_length_one {edges : List Edge} {s x : String} {p : List String}
    (h : IsPath edges s x p) (hl : p.length = 1) : x = s := by
  cases h with
  | refl => rfl
  | @snoc y _ q hq he =>
    exfalso
    have h1 := hq.length_pos
    simp only [List.length_append, List.length_singleton] at hl
    omega

lemma IsPath.snoc_inv {edges : List Edge} {s x : String} {p : List String}
    (h : IsPath edges s x p) (hl : 2 ≤ p.length) :
    ∃ y q, IsPath edges s y q ∧ HasEdge edges y x ∧ p = q ++ [x] ∧
      q.length + 1 = p.length := by
  cases h with
  | refl => simp at hl
  | @snoc y _ q hq he => exact ⟨y, q, hq, he, rfl, by simp⟩

lemma bfsInv_shift {edges : List Edge} {s e : String} {q : List (String × List String)}
    {v D : List String} {k : ℕ} (h : BfsInv edges s e q v D k)
    (hall : ∀ zp ∈ q, zp.2.length = k + 1) : BfsInv edges s e q v D (k + 1) where
  sound := h.sound
  levels := ⟨q, [], by simp, hall, by simp⟩
  closed := h.closed
  vis := h.vis
  qvis := h.qvis
  dvis := h.dvis
  start := h.start
  target := h.target
  kpos := by have := h.kpos; omega
  k1 := by
    intro x P hP hlen
    rcases Nat.lt_succ_iff_lt_or_eq.mp hlen with hlt | heq
    · exact h.k1 x P hP hlt
    · rcases h.k2 x P hP heq with hD | ⟨p, hpq, hplen⟩
      · exact hD
      · have hk1 := hall (x, p) hpq
        simp only at hk1
        omega
  k2 := by
    intro x P hP hlen
    have h2 : 2 ≤ P.length := by have := h.kpos; omega
    obtain ⟨y, Q, hQ, hedge, hPQ, hQlen⟩ := hP.snoc_inv h2
    have hQk : Q.length = k := by omega
    rcases h.k2 y Q hQ hQk with hyD | ⟨p, hpq, hplen⟩
    · have hxv : x ∈ v := h.closed y hyD x hedge
      rcases h.vis x hxv with hxD | ⟨p, hpq⟩
      · exact Or.inl hxD
      · exact Or.inr ⟨p, hpq, hall (x, p) hpq⟩
    · have hk1 := hall (y, p) hpq
      simp only at hk1
      omega
  k3 := h.k3

lemma neighborsOf_iff_hasEdge (edges : List Edge) (z n : String) :
    n ∈ neighborsOf edges z ↔ HasEdge edges z n := by
  simp only [neighborsOf, List.mem_map, List.mem_filter, decide_eq_true_eq]
  constructor
  · rintro ⟨e2, ⟨he2, hfrom⟩, rfl⟩
    exact ⟨e2, he2, hfrom, rfl⟩
  · rintro ⟨e2, he2, hfrom, hto⟩
    exact ⟨e2, ⟨he2, hfrom⟩, hto⟩

lemma bfsInv_step {edges : List Edge} {s e z : String} {p : List String}
    {rest : List (String × List String)} {v D : List String} {k : ℕ}
    (h : BfsInv edges s e ((z, p) :: rest) v D k) (hz : z ≠ e) (hp : p.length = k) :
    BfsInv edges s e (pushNeighbors p (neighborsOf edges z) rest v).1
      (pushNeighbors p (neighborsOf edges z) rest v).2 (D ++ [z]) k := by
  obtain ⟨nw, hq1, hnw⟩ := pushNeighbors_queue_ext p (neighborsOf edges z) rest v
  have hvis2 := pushNeighbors_visited p (neighborsOf edges z) rest v
  have hcov := pushNeighbors_covers p (neighborsOf edges z) rest v
  have hsound_head : IsPath edges s z p := h.sound (z, p) (List.mem_cons_self _ _)
  have hmemq : ∀ zp, zp ∈ (pushNeighbors p (neighborsOf edges z) rest v).1 ↔
      zp ∈ rest ∨ zp ∈ nw := by
    intro zp
    rw [hq1]
    exact List.mem_append
  have hvisold : ∀ x ∈ v, x ∈ D ++ [z] ∨
      ∃ p2, (x, p2) ∈ (pushNeighbors p (neighborsOf edges z) rest v).1 := by
    intro x hxv
    rcases h.vis x hxv with hxD | ⟨pp, hppq⟩
    · exact Or.inl (List.mem_append_left [z] hxD)
    · rcases List.mem_cons.mp hppq with heq | hrest
      · have h1 : x = z := congrArg Prod.fst heq
        exact Or.inl (List.mem_append_right D (h1 ▸ List.mem_singleton_self z))
      · exact Or.inr ⟨pp, (hmemq (x, pp)).mpr (Or.inl hrest)⟩
  exact {
    sound := by
      intro zp hzp
      rcases (hmemq zp).mp hzp with hr | hn
      · exact h.sound zp (List.mem_cons_of_mem _ hr)
      · obtain ⟨hns, hnv, hzp2⟩ := hnw zp hn
        rw [hzp2]
        exact hsound_head.snoc ((neighborsOf_iff_hasEdge edges z zp.1).mp hns)
    levels := by
      obtain ⟨qa, qb, hsplit, hqa, hqb⟩ := h.levels
      cases qa with
      | nil =>
        exfalso
        rw [List.nil_append] at hsplit
        have := hqb (z, p) (hsplit ▸ List.mem_cons_self _ _)
        simp only at this
        omega
      | cons hd qa2 =>
        rw [List.cons_append] at hsplit
        injection hsplit with h1 h2
        refine ⟨qa2, qb ++ nw, ?_, ?_, ?_⟩
        · rw [hq1, h2, List.append_assoc]
        · intro zp hzp
          exact hqa zp (List.mem_cons_of_mem hd hzp)
        · intro zp hzp
          rcases List.mem_append.mp hzp with hb | hn
          · exact hqb zp hb
          · obtain ⟨_, _, hzp2⟩ := hnw zp hn
            rw [hzp2]
            simp only [List.length_append, List.length_singleton]
            omega
    closed := by
      intro x hx w hedge
      rcases List.mem_append.mp hx with hxD | hxz
      · exact (hvis2 w).mpr (Or.inl (h.closed x hxD w hedge))
      · simp only [List.mem_singleton] at hxz
        subst hxz
        exact (hvis2 w).mpr (Or.inr ((neighborsOf_iff_hasEdge edges x w).mpr hedge))
    vis := by
      intro x hx
      rcases (hvis2 x).mp hx with hxv | hxn
      · exact hvisold x hxv
      · by_cases hxv2 : x ∈ v
        · exact hvisold x hxv2
        · exact Or.inr ⟨p ++ [x], hcov x hxn hxv2⟩
    qvis := by
      intro zp hzp
      rcases (hmemq zp).mp hzp with hr | hn
      · rcases h.qvis zp (List.mem_cons_of_mem _ hr) with h1 | h1
        · exact Or.inl ((hvis2 zp.1).mpr (Or.inl h1))
        · exact Or.inr h1
      · obtain ⟨hns, _, _⟩ := hnw zp hn
        exact Or.inl ((hvis2 zp.1).mpr (Or.inr hns))
    dvis := by
      intro x hx
      rcases List.mem_append.mp hx with hxD | hxz
      · rcases h.dvis x hxD with h1 | h1
        · exact Or.inl ((hvis2 x).mpr (Or.inl h1))
        · exact Or.inr h1
      · simp only [List.mem_singleton] at hxz
        subst hxz
        rcases h.qvis (x, p) (List.mem_cons_self _ _) with h1 | h1
        · exact Or.inl ((hvis2 x).mpr (Or.inl h1))
        · exact Or.inr h1
    start := by
      rcases h.start with hD | ⟨pp, hppq⟩
      · exact Or.inl (List.mem_append_left [z] hD)
      · rcases List.mem_cons.mp hppq with heq | hrest
        · have h1 : s = z := congrArg Prod.fst heq
          exact Or.inl (List.mem_append_right D (h1 ▸ List.mem_singleton_self z))
        · exact Or.inr ⟨pp, (hmemq (s, pp)).mpr (Or.inl hrest)⟩
    target := by
      intro hmem
      rcases List.mem_append.mp hmem with h1 | h1
      · exact h.target h1
      · simp only [List.mem_singleton] at h1
        exact hz h1.symm
    kpos := h.kpos
    k1 := by
      intro x P hP hlt
      exact List.mem_append_left [z] (h.k1 x P hP hlt)
    k2 := by
      intro x P hP hPk
      rcases h.k2 x P hP hPk with hxD | ⟨pp, hppq, hpplen⟩
      · exact Or.inl (List.mem_append_left [z] hxD)
      · rcases List.mem_cons.mp hppq with heq | hrest
        · have h1 : x = z := congrArg Prod.fst heq
          exact Or.inl (List.mem_append_right D (h1 ▸ List.mem_singleton_self z))
        · exact Or.inr ⟨pp, (hmemq (x, pp)).mpr (Or.inl hrest), hpplen⟩
    k3 := by
      intro zp hzp hzs P hP
      rcases (hmemq zp).mp hzp with hr | hn
      · exact h.k3 zp (List.mem_cons_of_mem _ hr) hzs P hP
      · obtain ⟨hns, hnv, hzp2⟩ := hnw zp hn
        rw [hzp2]
        simp only [List.length_append, List.length_singleton]
        by_contra hcon
        push_neg at hcon
        have hPle : P.length ≤ k := by omega
        have hnotvs : zp.1 ∉ v ∧ zp.1 ≠ s := ⟨hnv, hzs⟩
        rcases Nat.lt_or_ge P.length k with hlt | hge
        · have hD := h.k1 zp.1 P hP hlt
          rcases h.dvis zp.1 hD with h1 | h1
          · exact hnotvs.1 h1
          · exact hnotvs.2 h1
        · have hPk : P.length = k := by omega
          rcases h.k2 zp.1 P hP hPk with hD | ⟨pp, hppq, _⟩
          · rcases h.dvis zp.1 hD with h1 | h1
            · exact hnotvs.1 h1
            · exact hnotvs.2 h1
          · rcases h.qvis (zp.1, pp) hppq with h1 | h1
            · exact hnotvs.1 h1
            · exact hnotvs.2 h1 }

lemma bfsLoop_correct (edges : List Edge) (s e : String) (hse : e ≠ s) :
    ∀ (fuel : ℕ) (q : List (String × List String)) (v D : List String) (k : ℕ),
      BfsInv edges s e q v D k → bfsMeasure edges q v < fuel →
      ∃ r, bfsLoop edges e fuel q v = some r ∧
        (r = none → ∀ P, ¬ IsPath edges s e P) ∧
        (∀ p2, r = some p2 → IsPath edges s e p2 ∧
          ∀ P, IsPath edges s e P → p2.length ≤ P.length) := by
  intro fuel
  induction fuel with
  | zero =>
    intro q v D k _ hm
    exact absurd hm (Nat.not_lt_zero _)
  | succ fuel ih =>
    intro q v D k hinv hm
    match q with
    | [] =>
      refine ⟨none, by simp [bfsLoop], ?_, ?_⟩
      · intro _ P hP
        have hreach : ∀ x Q, IsPath edges s x Q → x ∈ D := by
          intro x Q hQ
          induction hQ with
          | refl =>
            rcases hinv.start with h1 | ⟨p2, hp2⟩
            · exact h1
            · cases hp2
          | snoc hQ2 hedge ih2 =>
            have hv := hinv.closed _ ih2 _ hedge
            rcases hinv.vis _ hv with h1 | ⟨p2, hp2⟩
            · exact h1
            · cases hp2
        exact hinv.target (hreach e P hP)
      · intro p2 hp2
        cases hp2
    | (z, p) :: rest =>
      by_cases hz : z = e
      · subst hz
        refine ⟨some p, by simp [bfsLoop], ?_, ?_⟩
        · intro hcon
          cases hcon
        · intro p2 hp2
          obtain rfl : p = p2 := Option.some.inj hp2
          refine ⟨hinv.sound (z, p) (List.mem_cons_self _ _), ?_⟩
          intro P hP
          exact hinv.k3 (z, p) (List.mem_cons_self _ _) hse P hP
      · obtain ⟨qa, qb, hsplit, hqa, hqb⟩ := hinv.levels
        have hmeas : bfsMeasure edges (pushNeighbors p (neighborsOf edges z) rest v).1
            (pushNeighbors p (neighborsOf edges z) rest v).2 < fuel := by
          have hpm := pushNeighbors_measure edges p (neighborsOf edges z) rest v
            (neighborsOf_subset_targets edges z)
          unfold bfsMeasure at hm ⊢
          simp only [List.length_cons] at hm
          omega
        have hrun : ∀ k2, BfsInv edges s e
            (pushNeighbors p (neighborsOf edges z) rest v).1
            (pushNeighbors p (neighborsOf edges z) rest v).2 (D ++ [z]) k2 →
            ∃ r, bfsLoop edges e (fuel + 1) ((z, p) :: rest) v = some r ∧
              (r = none → ∀ P, ¬ IsPath edges s e P) ∧
              (∀ p2, r = some p2 → IsPath edges s e p2 ∧
                ∀ P, IsPath edges s e P → p2.length ≤ P.length) := by
          intro k2 hstep
          obtain ⟨r, hr, h1, h2⟩ := ih _ _ (D ++ [z]) k2 hstep hmeas
          refine ⟨r, ?_, h1, h2⟩
          simp only [bfsLoop, if_neg hz]
          exact hr
        cases qa with
        | nil =>
          rw [List.nil_append] at hsplit
          have hall : ∀ zp ∈ (z, p) :: rest, zp.2.length = k + 1 := by
            intro zp hzp
            exact hqb zp (hsplit ▸ hzp)
          have hp1 : p.length = k + 1 := hall (z, p) (List.mem_cons_self _ _)
          exact hrun (k + 1) (bfsInv_step (bfsInv_shift hinv hall) hz hp1)
        | cons hd qa2 =>
          rw [List.cons_append] at hsplit
          injection hsplit with h1 h2
          have hp1 : p.length = k := by
            have := hqa hd (List.mem_cons_self _ _)
            rw [← h1] at this
            exact this
          exact hrun k (bfsInv_step hinv hz hp1)

lemma bfsMeasure_init_lt (edges : List Edge) (startId : String) :
    bfsMeasure edges [(startId, [startId])] [] < bfsFuel edges := by
  unfold bfsMeasure targetsNotVisited bfsFuel
  have h1 : (((edges.map (fun e => e.«to»)).dedup).filter
      (fun t => decide (t ∉ ([] : List String)))).length ≤ edges.length := by
    calc (((edges.map (fun e => e.«to»)).dedup).filter
        (fun t => decide (t ∉ ([] : List String)))).length
        ≤ ((edges.map (fun e => e.«to»)).dedup).length := List.length_filter_le _ _
      _ ≤ (edges.map (fun e => e.«to»)).length :=
          List.Sublist.length_le (List.dedup_sublist _)
      _ = edges.length := List.length_map _ _
  simp only [List.length_cons, List.length_nil]
  omega

lemma bfsInv_init (edges : List Edge) (s e : String) (hse : e ≠ s) :
    BfsInv edges s e [(s, [s])] [] [] 1 where
  sound := by
    intro zp hzp
    rcases List.mem_singleton.mp hzp with rfl
    exact IsPath.refl
  levels := ⟨[(s, [s])], [], by simp, by intro zp hzp; rcases List.mem_singleton.mp hzp with rfl; rfl,
    by simp⟩
  closed := by intro x hx; cases hx
  vis := by intro z hz2; cases hz2
  qvis := by
    intro zp hzp
    rcases List.mem_singleton.mp hzp with rfl
    exact Or.inr rfl
  dvis := by intro x hx; cases hx
  start := Or.inr ⟨[s], List.mem_singleton_self _⟩
  target := by intro hcon; cases hcon
  kpos := le_rfl
  k1 := by
    intro x P hP hl
    exfalso
    have := hP.length_pos
    omega
  k2 := by
    intro x P hP hl
    have hx : x = s := hP.eq_of_length_one hl
    subst hx
    exact Or.inr ⟨[x], List.mem_singleton_self _, rfl⟩
  k3 := by
    intro zp hzp hzs P hP
    exfalso
    rcases List.mem_singleton.mp hzp with rfl
    exact hzs rfl

/-- C1: `findPath` returns `[start]` whenever `start = end` regardless of the
edge list; it returns `null` exactly when no directed path from start to end
exists; and any returned path is a directed path from start to end whose
length (hence edge count) is minimal among all directed paths. -/
theorem findPath_shortest (edges : List Edge) (startId endId : String) :
    (startId = endId → findPath startId endId edges = some [startId]) ∧
    (findPath startId endId edges = none ↔ ∀ P, ¬ IsPath edges startId endId P) ∧
    (∀ p, findPath startId endId edges = some p →
      IsPath edges startId endId p ∧
        ∀ P, IsPath edges startId endId P → p.length ≤ P.length) := by
  by_cases hse : startId = endId
  · subst hse
    refine ⟨fun _ => by simp [findPath], ?_, ?_⟩
    · constructor
      · intro hcon
        rw [findPath, if_pos rfl] at hcon
        cases hcon
      · intro hall
        exact absurd IsPath.refl (hall [startId])
    · intro p hp
      rw [findPath, if_pos rfl] at hp
      obtain rfl : [startId] = p := Option.some.inj hp
      refine ⟨IsPath.refl, ?_⟩
      intro P hP
      simpa using hP.length_pos
  · have hse2 : endId ≠ startId := fun hc => hse hc.symm
    obtain ⟨r, hr, h1, h2⟩ := bfsLoop_correct edges startId endId hse2 (bfsFuel edges)
      [(startId, [startId])] [] [] 1 (bfsInv_init edges startId endId hse2)
      (bfsMeasure_init_lt edges startId)
    have hfp : findPath startId endId edges = r := by
      simp only [findPath, if_neg hse, hr]
    refine ⟨fun hc => absurd hc hse, ?_, ?_⟩
    · rw [hfp]
      constructor
      · exact h1
      · intro hall
        cases r with
        | none => rfl
        | some p => exact absurd (h2 p rfl).1 (hall p)
    · intro p hp
      rw [hfp] at hp
      exact h2 p hp

/-- Witness for C1 on the concrete `A -> B -> C` graph. -/
theorem findPath_shortest_witness :
    findPath "A" "A" edgesABC = some ["A"] ∧
    (IsPath edgesABC "A" "C" ["A", "B", "C"] ∧
      ∀ P, IsPath edgesABC "A" "C" P → (["A", "B", "C"] : List String).length ≤ P.length) :=
  ⟨(findPath_shortest edgesABC "A" "A").1 rfl,
   (findPath_shortest edgesABC "A" "C").2.2 ["A", "B", "C"] (by decide)⟩

end SmartBus



